import Mathlib

/-!
Verification of the Sudoku tutor engine (`sudoku_tutor.py`, `sudoku_generator.py`).

This file gives a shallow embedding of the engine in Lean 4 and proves the
claims about it.  Python's 9×9 arrays become functions `Fin 9 → Fin 9 → _`,
Python `set` objects holding candidate digits become `Finset ℕ`, and in-place
mutation becomes functional update.  Where Python iterates over a `set` (whose
iteration order is unspecified) the embedding iterates in ascending order; this
only affects which of several equivalent steps is returned, never whether one
is returned, and every property proved below is insensitive to that order
except where a comment notes otherwise.  Display-only material (ANSI colours,
grid printing, the `explanation` strings of steps, the interactive prompt) is
not modelled: per the design, `explanation` is not part of a Step's identity.
-/

/-- A cell coordinate (row, column), both 0–8. -/
abbrev Cell : Type := Fin 9 × Fin 9

/-- The indices of `range(9)`, written as a literal list (it equals
`fins9`, see `fins9_eq`). -/
def fins9 : List (Fin 9) := [0, 1, 2, 3, 4, 5, 6, 7, 8]

/-- The indices of `range(3)` as a literal list. -/
def fins3 : List (Fin 3) := [0, 1, 2]

theorem fins9_eq : fins9 = List.finRange 9 := by decide

theorem fins3_eq : fins3 = List.finRange 3 := by decide

theorem mem_fins9 (x : Fin 9) : x ∈ fins9 := by
  rw [fins9_eq]; exact List.mem_finRange x

/-- The digit list `range(1, 10)` = [1,…,9]. -/
def digitsList : List ℕ := (List.range 9).map (· + 1)

/-- The digit set {1,…,9} (`set(range(1, 10))` in the source). -/
def digitsSet : Finset ℕ := Finset.Icc 1 9

/-- `Grid.box_of`: `(r // 3) * 3 + (c // 3)`. -/
def box_of (r c : Fin 9) : ℕ := (r.val / 3) * 3 + c.val / 3

/-- `Grid.cells_of_box`: the nine cells of box `b`, enumerated row-major. -/
def cells_of_box (b : Fin 9) : List Cell :=
  fins3.flatMap fun dr =>
    fins3.map fun dc =>
      ((⟨(b.val / 3) * 3 + dr.val, by omega⟩ : Fin 9),
       (⟨(b.val % 3) * 3 + dc.val, by omega⟩ : Fin 9))

/-- The cells of row `r` in column order. -/
def rowCells (r : Fin 9) : List Cell := fins9.map fun c => (r, c)

/-- The cells of column `c` in row order. -/
def colCells (c : Fin 9) : List Cell := fins9.map fun r => (r, c)

/-- `Grid.get_houses`: the 27 houses in source order (9 rows, 9 columns,
9 boxes), each as (kind, index, cells).  The list does not depend on the
grid contents, so it is a constant here. -/
def get_houses : List (String × ℕ × List Cell) :=
  (fins9.map fun r => ("row", r.val, rowCells r)) ++
  (fins9.map fun c => ("col", c.val, colCells c)) ++
  (fins9.map fun b => ("box", b.val, cells_of_box b))

/-- `Grid.cell_sees`: two distinct cells sharing a row, column or box. -/
def cell_sees (r1 c1 r2 c2 : Fin 9) : Bool :=
  if (r1, c1) = ((r2, c2) : Cell) then false
  else r1 = r2 ∨ c1 = c2 ∨ box_of r1 c1 = box_of r2 c2

/-- All 81 cells in row-major order. -/
def allCells : List Cell :=
  fins9.flatMap fun r => fins9.map fun c => (r, c)

/-- `Grid.all_peers`: the 20 cells seeing `(r, c)`.  The source collects them
into a Python `set` (row, column and box cells, minus the cell itself); here
they are listed canonically in row-major order, which is the same set. -/
def all_peers (r c : Fin 9) : List Cell :=
  allCells.filter fun p => cell_sees r c p.1 p.2

/-- One deduction step (`Step` dataclass).  The `explanation` string is
omitted: it is display-only and not part of a Step's identity. -/
structure Step where
  strategy : String
  placements : List (Fin 9 × Fin 9 × ℕ) := []
  eliminations : List (Fin 9 × Fin 9 × ℕ) := []
  house_type : String := ""
  house_index : ℤ := -1
  pattern_cells : List Cell := []
deriving DecidableEq, Repr

/-- The 9×9 grid with values, given-flags and per-cell candidate sets. -/
structure Grid where
  values : Fin 9 → Fin 9 → ℕ
  givens : Fin 9 → Fin 9 → Bool
  candidates : Fin 9 → Fin 9 → Finset ℕ

/-- `Grid._remove_from_peers`: discard digit `d` from the candidate set of
every peer of `(r, c)`.  The source loops over `all_peers`; discarding is
pointwise, so the combined effect is this single functional update. -/
def Grid.remove_from_peers (g : Grid) (r c : Fin 9) (d : ℕ) : Grid :=
  { g with candidates := fun r' c' =>
      if cell_sees r c r' c' then (g.candidates r' c').erase d
      else g.candidates r' c' }

/-- `Grid._init_candidates`: give every empty cell {1..9}, then for every
filled cell remove its value from all peers. -/
def Grid.init_candidates (g : Grid) : Grid :=
  (allCells.filter fun p => g.values p.1 p.2 ≠ 0).foldl
    (fun acc p => acc.remove_from_peers p.1 p.2 (g.values p.1 p.2))
    { g with candidates := fun r c => if g.values r c = 0 then digitsSet else ∅ }

/-- `Grid.__init__`: copy the values, set the given-flags, and compute the
initial candidates.  Note that the source performs no validity check of any
kind here: duplicated digits are accepted. -/
def Grid.init (values : Fin 9 → Fin 9 → ℕ) : Grid :=
  Grid.init_candidates
    { values := values
      givens := fun r c => values r c ≠ 0
      candidates := fun _ _ => ∅ }

/-- `Grid.is_solved`: no cell is empty. -/
def Grid.is_solved (g : Grid) : Bool := allCells.all fun p => g.values p.1 p.2 ≠ 0

/-- `Grid.empty_cells`: the empty cells in row-major order. -/
def Grid.empty_cells (g : Grid) : List Cell :=
  allCells.filter fun p => g.values p.1 p.2 = 0

/-- One elimination `(r, c, d)`: `candidates[r][c].discard(d)`. -/
def Grid.elimOne (g : Grid) (e : Fin 9 × Fin 9 × ℕ) : Grid :=
  { g with candidates := fun r' c' =>
      if (r', c') = ((e.1, e.2.1) : Cell) then (g.candidates r' c').erase e.2.2
      else g.candidates r' c' }

/-- One placement `(r, c, d)`: set the value, clear the cell's candidates,
and remove `d` from every peer's candidates. -/
def Grid.placeOne (g : Grid) (p : Fin 9 × Fin 9 × ℕ) : Grid :=
  Grid.remove_from_peers
    { g with
      values := fun r' c' => if (r', c') = ((p.1, p.2.1) : Cell) then p.2.2
                             else g.values r' c'
      candidates := fun r' c' => if (r', c') = ((p.1, p.2.1) : Cell) then ∅
                                 else g.candidates r' c' }
    p.1 p.2.1 p.2.2

/-- `Grid.apply_step`: process all eliminations, then all placements.  The
source performs no check whatsoever (in particular no contradiction check)
and cannot fail. -/
def Grid.apply_step (g : Grid) (s : Step) : Grid :=
  s.placements.foldl Grid.placeOne (s.eliminations.foldl Grid.elimOne g)

/-! ### Detector helpers -/

/-- Filter by a decidable proposition (Python list comprehension guard). -/
def dfilter {α : Type} (l : List α) (P : α → Prop) [DecidablePred P] : List α :=
  l.filter fun a => decide (P a)

theorem mem_dfilter {α : Type} {l : List α} {P : α → Prop} [DecidablePred P]
    {a : α} : a ∈ dfilter l P ↔ a ∈ l ∧ P a := by
  simp [dfilter, List.mem_filter]

/-- `itertools.combinations`: all sorted index-order selections of `n`
elements of `l`, in the order Python emits them. -/
def combos {α : Type} : ℕ → List α → List (List α)
  | 0, _ => [[]]
  | _ + 1, [] => []
  | n + 1, x :: xs => ((combos n xs).map (x :: ·)) ++ combos (n + 1) xs

/-- Ascending enumeration of a set of digits.  Every set the source sorts or
iterates is a set of candidate digits, which always lies inside {1..9}, so
filtering the digit list is exactly Python's `sorted(s)` / set iteration. -/
def sortAsc (s : Finset ℕ) : List ℕ := digitsList.filter fun d => decide (d ∈ s)

/-- Smallest digit of a candidate set (0 if empty).  Python pops or unpacks
sets whose iteration order is unspecified; whenever the source does so the
set is either a singleton (so this agrees) or the choice is irrelevant to
the emitted eliminations. -/
def setMin (s : Finset ℕ) : ℕ := (sortAsc s).headD 0

/-- Largest digit of a candidate set (0 if empty). -/
def setMax (s : Finset ℕ) : ℕ := (sortAsc s).getLastD 0

/-- `cells_of_box` on a plain natural box index (indices are always 0–8 at
every call site, mirroring Python's unchecked indexing). -/
def cells_of_boxN (b : ℕ) : List Cell :=
  if h : b < 9 then cells_of_box ⟨b, h⟩ else []

/-- Deduplicate keeping the first occurrence of each element, like Python
dict/set insertion order. -/
def firstDedup {α : Type} [DecidableEq α] (l : List α) : List α :=
  firstDedupAux l []
where
  firstDedupAux : List α → List α → List α
  | [], _ => []
  | a :: l, seen =>
    if a ∈ seen then firstDedupAux l seen else a :: firstDedupAux l (a :: seen)

/-- `_SET_NAMES`. -/
def setName : ℕ → String
  | 2 => "Pair"
  | 3 => "Triple"
  | 4 => "Quad"
  | _ => ""

/-! ### Tier 1 detectors -/

/-- `find_full_house`: a house with exactly one empty cell; place the one
missing digit there. -/
def find_full_house (g : Grid) : Option Step :=
  get_houses.findSome? fun h =>
    match dfilter h.2.2 (fun p => g.values p.1 p.2 = 0) with
    | [(r, c)] =>
      let placed := (dfilter h.2.2 fun p => g.values p.1 p.2 ≠ 0).map fun p => g.values p.1 p.2
      match digitsList.filter (fun d => decide (d ∉ placed)) with
      | d :: _ =>
        some { strategy := "Full House", placements := [(r, c, d)],
               house_type := h.1, house_index := (h.2.1 : ℤ) }
      | [] => none
    | _ => none

/-- `find_naked_single`: an empty cell with exactly one candidate. -/
def find_naked_single (g : Grid) : Option Step :=
  allCells.findSome? fun p =>
    if g.values p.1 p.2 = 0 ∧ (g.candidates p.1 p.2).card = 1 then
      some { strategy := "Naked Single",
             placements := [(p.1, p.2, setMin (g.candidates p.1 p.2))] }
    else none

/-- `find_hidden_single`: a digit with exactly one possible cell in a house. -/
def find_hidden_single (g : Grid) : Option Step :=
  get_houses.findSome? fun h =>
    digitsList.findSome? fun d =>
      match dfilter h.2.2 (fun p => g.values p.1 p.2 = 0 ∧ d ∈ g.candidates p.1 p.2) with
      | [(r, c)] =>
        some { strategy := "Hidden Single", placements := [(r, c, d)],
               house_type := h.1, house_index := (h.2.1 : ℤ) }
      | _ => none

/-! ### Tier 2 detectors -/

/-- `find_naked_set` (Pair/Triple/Quad). -/
def find_naked_set (g : Grid) (size : ℕ) : Option Step :=
  get_houses.findSome? fun h =>
    let empty := dfilter h.2.2 fun p =>
      g.values p.1 p.2 = 0 ∧ 1 < (g.candidates p.1 p.2).card ∧
        (g.candidates p.1 p.2).card ≤ size
    (combos size empty).findSome? fun combo =>
      let union := combo.foldl (fun acc p => acc ∪ g.candidates p.1 p.2) ∅
      if union.card = size then
        let elims :=
          (dfilter h.2.2 fun p => p ∉ combo ∧ g.values p.1 p.2 = 0).flatMap fun p =>
            ((sortAsc union).filter fun d =>
              decide (d ∈ g.candidates p.1 p.2)).map fun d => (p.1, p.2, d)
        if elims.isEmpty then none
        else some { strategy := "Naked " ++ setName size, eliminations := elims,
                    house_type := h.1, house_index := (h.2.1 : ℤ) }
      else none

/-- `find_hidden_set` (Pair/Triple/Quad). -/
def find_hidden_set (g : Grid) (size : ℕ) : Option Step :=
  get_houses.findSome? fun h =>
    let empty := dfilter h.2.2 fun p => g.values p.1 p.2 = 0
    let keys := dfilter digitsList fun d =>
      2 ≤ (dfilter empty fun p => d ∈ g.candidates p.1 p.2).length ∧
        (dfilter empty fun p => d ∈ g.candidates p.1 p.2).length ≤ size
    if keys.length < size then none
    else
      (combos size keys).findSome? fun dc =>
        let cellUnion := dfilter empty fun p => ∃ d ∈ dc, d ∈ g.candidates p.1 p.2
        if cellUnion.length = size then
          let elims := cellUnion.flatMap fun p =>
            ((sortAsc (g.candidates p.1 p.2)).filter fun d =>
              decide (d ∉ dc)).map fun d => (p.1, p.2, d)
          if elims.isEmpty then none
          else some { strategy := "Hidden " ++ setName size, eliminations := elims,
                      house_type := h.1, house_index := (h.2.1 : ℤ) }
        else none

/-- `find_pointing_pairs` (Pointing Pair / Pointing Triple). -/
def find_pointing_pairs (g : Grid) : Option Step :=
  fins9.findSome? fun box =>
    digitsList.findSome? fun d =>
      let positions := dfilter (cells_of_box box) fun p =>
        g.values p.1 p.2 = 0 ∧ d ∈ g.candidates p.1 p.2
      if positions.length < 2 ∨ positions.length > 3 then none
      else
        let pname := if positions.length = 2 then "Pointing Pair" else "Pointing Triple"
        let rowBranch : Option Step :=
          match firstDedup (positions.map Prod.fst) with
          | [row] =>
            let elims := (dfilter fins9 fun col =>
              box_of row col ≠ box.val ∧ g.values row col = 0 ∧
                d ∈ g.candidates row col).map fun col => (row, col, d)
            if elims.isEmpty then none
            else some { strategy := pname, eliminations := elims,
                        house_type := "box", house_index := (box.val : ℤ) }
          | _ => none
        match rowBranch with
        | some s => some s
        | none =>
          match firstDedup (positions.map Prod.snd) with
          | [col] =>
            let elims := (dfilter fins9 fun rr =>
              box_of rr col ≠ box.val ∧ g.values rr col = 0 ∧
                d ∈ g.candidates rr col).map fun rr => (rr, col, d)
            if elims.isEmpty then none
            else some { strategy := pname, eliminations := elims,
                        house_type := "box", house_index := (box.val : ℤ) }
          | _ => none

/-- `find_box_line_reduction` (Claiming). -/
def find_box_line_reduction (g : Grid) : Option Step :=
  get_houses.findSome? fun h =>
    if h.1 = "box" then none
    else digitsList.findSome? fun d =>
      let positions := dfilter h.2.2 fun p =>
        g.values p.1 p.2 = 0 ∧ d ∈ g.candidates p.1 p.2
      if positions.length < 2 then none
      else
        match firstDedup (positions.map fun p => box_of p.1 p.2) with
        | [box] =>
          let elims := (dfilter (cells_of_boxN box) fun p =>
            p ∉ positions ∧ g.values p.1 p.2 = 0 ∧
              d ∈ g.candidates p.1 p.2).map fun p => (p.1, p.2, d)
          if elims.isEmpty then none
          else some { strategy := "Box-Line Reduction", eliminations := elims,
                      house_type := h.1, house_index := (h.2.1 : ℤ) }
        | _ => none

/-! ### Tier 3 detectors -/

/-- `find_x_wing`. -/
def find_x_wing (g : Grid) : Option Step :=
  digitsList.findSome? fun d =>
    let row_cols := fins9.filterMap fun r =>
      match dfilter fins9 (fun c => g.values r c = 0 ∧ d ∈ g.candidates r c) with
      | [c1, c2] => some (r, c1, c2)
      | _ => none
    let rowBased := (combos 2 row_cols).findSome? fun pr =>
      match pr with
      | [(r1, c1, c2), (r2, c1', c2')] =>
        if (c1, c2) = (c1', c2') then
          let elims := [c1, c2].flatMap fun col =>
            (dfilter fins9 fun r =>
              r ≠ r1 ∧ r ≠ r2 ∧ g.values r col = 0 ∧
                d ∈ g.candidates r col).map fun r => (r, col, d)
          if elims.isEmpty then none
          else some { strategy := "X-Wing", eliminations := elims,
                      pattern_cells := [(r1, c1), (r1, c2), (r2, c1), (r2, c2)] }
        else none
      | _ => none
    match rowBased with
    | some s => some s
    | none =>
      let col_rows := fins9.filterMap fun c =>
        match dfilter fins9 (fun r => g.values r c = 0 ∧ d ∈ g.candidates r c) with
        | [r1, r2] => some (c, r1, r2)
        | _ => none
      (combos 2 col_rows).findSome? fun pr =>
        match pr with
        | [(c1, r1, r2), (c2, r1', r2')] =>
          if (r1, r2) = (r1', r2') then
            let elims := [r1, r2].flatMap fun row =>
              (dfilter fins9 fun col =>
                col ≠ c1 ∧ col ≠ c2 ∧ g.values row col = 0 ∧
                  d ∈ g.candidates row col).map fun col => (row, col, d)
            if elims.isEmpty then none
            else some { strategy := "X-Wing", eliminations := elims,
                        pattern_cells := [(r1, c1), (r1, c2), (r2, c1), (r2, c2)] }
          else none
        | _ => none

/-- `find_swordfish`.  Python stores the column sets of the base rows as
`set` objects; canonical ascending lists represent the same sets. -/
def find_swordfish (g : Grid) : Option Step :=
  digitsList.findSome? fun d =>
    let row_cols := fins9.filterMap fun r =>
      let cols := dfilter fins9 fun c => g.values r c = 0 ∧ d ∈ g.candidates r c
      if 2 ≤ cols.length ∧ cols.length ≤ 3 then some (r, cols) else none
    let rowBased := (combos 3 row_cols).findSome? fun tr =>
      match tr with
      | [(r1, cs1), (r2, cs2), (r3, cs3)] =>
        let cover := dfilter fins9 fun c => c ∈ cs1 ∨ c ∈ cs2 ∨ c ∈ cs3
        if cover.length = 3 then
          let elims := cover.flatMap fun c =>
            (dfilter fins9 fun r =>
              r ≠ r1 ∧ r ≠ r2 ∧ r ≠ r3 ∧ g.values r c = 0 ∧
                d ∈ g.candidates r c).map fun r => (r, c, d)
          if elims.isEmpty then none
          else some { strategy := "Swordfish", eliminations := elims,
                      pattern_cells := [r1, r2, r3].flatMap fun r =>
                        (dfilter cover fun c =>
                          g.values r c = 0 ∧ d ∈ g.candidates r c).map fun c => ((r, c) : Cell) }
        else none
      | _ => none
    match rowBased with
    | some s => some s
    | none =>
      let col_rows := fins9.filterMap fun c =>
        let rows := dfilter fins9 fun r => g.values r c = 0 ∧ d ∈ g.candidates r c
        if 2 ≤ rows.length ∧ rows.length ≤ 3 then some (c, rows) else none
      (combos 3 col_rows).findSome? fun tr =>
        match tr with
        | [(c1, rs1), (c2, rs2), (c3, rs3)] =>
          let cover := dfilter fins9 fun r => r ∈ rs1 ∨ r ∈ rs2 ∨ r ∈ rs3
          if cover.length = 3 then
            let elims := cover.flatMap fun r =>
              (dfilter fins9 fun c =>
                c ≠ c1 ∧ c ≠ c2 ∧ c ≠ c3 ∧ g.values r c = 0 ∧
                  d ∈ g.candidates r c).map fun c => (r, c, d)
            if elims.isEmpty then none
            else some { strategy := "Swordfish", eliminations := elims,
                        pattern_cells := [c1, c2, c3].flatMap fun c =>
                          (dfilter cover fun r =>
                            g.values r c = 0 ∧ d ∈ g.candidates r c).map fun r => ((r, c) : Cell) }
          else none
        | _ => none

/-- `find_y_wing` (XY-Wing).  The pivot digits `A, B` are recovered as the
min/max of the 2-element candidate set; every use of them in the source is
symmetric, so the unpacking order of the Python set does not matter. -/
def find_y_wing (g : Grid) : Option Step :=
  let bivs := dfilter allCells fun p =>
    g.values p.1 p.2 = 0 ∧ (g.candidates p.1 p.2).card = 2
  bivs.findSome? fun pv =>
    let A := setMin (g.candidates pv.1 pv.2)
    let B := setMax (g.candidates pv.1 pv.2)
    let wings := dfilter bivs fun w =>
      w ≠ pv ∧ cell_sees pv.1 pv.2 w.1 w.2 = true ∧
        ((g.candidates w.1 w.2) ∩ {A, B}).card = 1
    (combos 2 wings).findSome? fun pr =>
      match pr with
      | [w1, w2] =>
        let cands1 := g.candidates w1.1 w1.2
        let cands2 := g.candidates w2.1 w2.2
        if cands1 ∩ {A, B} = cands2 ∩ {A, B} then none
        else
          let Cset := (cands1 ∪ cands2) \ {A, B}
          if Cset.card = 1 then
            let C := setMin Cset
            if C ∈ cands1 ∧ C ∈ cands2 then
              let elims := (dfilter g.empty_cells fun x =>
                x ≠ pv ∧ x ≠ w1 ∧ x ≠ w2 ∧ C ∈ g.candidates x.1 x.2 ∧
                  cell_sees x.1 x.2 w1.1 w1.2 = true ∧
                  cell_sees x.1 x.2 w2.1 w2.2 = true).map fun x => (x.1, x.2, C)
              if elims.isEmpty then none
              else some { strategy := "Y-Wing", eliminations := elims,
                          pattern_cells := [pv, w1, w2] }
            else none
          else none
      | _ => none

/-- `find_xyz_wing`. -/
def find_xyz_wing (g : Grid) : Option Step :=
  let trivs := dfilter allCells fun p =>
    g.values p.1 p.2 = 0 ∧ (g.candidates p.1 p.2).card = 3
  let bivs := dfilter allCells fun p =>
    g.values p.1 p.2 = 0 ∧ (g.candidates p.1 p.2).card = 2
  trivs.findSome? fun pv =>
    let pc := g.candidates pv.1 pv.2
    let wings := dfilter bivs fun w =>
      cell_sees pv.1 pv.2 w.1 w.2 = true ∧ g.candidates w.1 w.2 ⊆ pc
    (combos 2 wings).findSome? fun pr =>
      match pr with
      | [w1, w2] =>
        let cands1 := g.candidates w1.1 w1.2
        let cands2 := g.candidates w2.1 w2.2
        if cands1 ∪ cands2 ≠ pc then none
        else
          let shared := cands1 ∩ cands2
          if shared.card = 1 then
            let Z := setMin shared
            let elims := (dfilter g.empty_cells fun x =>
              x ≠ pv ∧ x ≠ w1 ∧ x ≠ w2 ∧ Z ∈ g.candidates x.1 x.2 ∧
                cell_sees x.1 x.2 pv.1 pv.2 = true ∧
                cell_sees x.1 x.2 w1.1 w1.2 = true ∧
                cell_sees x.1 x.2 w2.1 w2.2 = true).map fun x => (x.1, x.2, Z)
            if elims.isEmpty then none
            else some { strategy := "XYZ-Wing", eliminations := elims,
                        pattern_cells := [pv, w1, w2] }
          else none
      | _ => none

/-- Breadth-first two-colouring of one conjugate-link component, matching the
source's FIFO `deque` loop.  The fuel bounds the number of queue pops: at
most 81 cells enter the component and each contributes at most 20 queue
entries, so 4000 is never exhausted. -/
def bfs (nbrs : Cell → List Cell) :
    ℕ → List (Cell × Bool) → List (Cell × Bool) → List (Cell × Bool)
  | 0, _, comp => comp
  | _ + 1, [], comp => comp
  | fuel + 1, (cell, color) :: queue, comp =>
    if comp.any fun e => e.1 = cell then bfs nbrs fuel queue comp
    else
      let comp' := comp ++ [(cell, color)]
      let newq := ((nbrs cell).filter fun nb =>
        decide (¬ ∃ e ∈ comp', e.1 = nb)).map fun nb => (nb, !color)
      bfs nbrs fuel (queue ++ newq) comp'

/-- The per-start scan of `find_simple_coloring`: skip visited starts, build
the component, try Rule 1 then Rule 2, else accumulate the visited set and
continue. -/
def scanStarts (g : Grid) (d : ℕ) (nbrs : Cell → List Cell) :
    List Cell → List Cell → Option Step
  | [], _ => none
  | start :: rest, visited =>
    if start ∈ visited then scanStarts g d nbrs rest visited
    else
      let comp := bfs nbrs 4000 [(start, true)] []
      let blue := (comp.filter fun e => e.2).map fun e => e.1
      let green := (comp.filter fun e => !e.2).map fun e => e.1
      let rule1 := [blue, green].findSome? fun same =>
        (combos 2 same).findSome? fun pr =>
          match pr with
          | [p, q] =>
            if cell_sees p.1 p.2 q.1 q.2 then
              let elims := (dfilter same fun x =>
                d ∈ g.candidates x.1 x.2).map fun x => (x.1, x.2, d)
              if elims.isEmpty then none
              else some { strategy := "Simple Coloring", eliminations := elims,
                          pattern_cells := comp.map fun e => e.1 }
            else none
          | _ => none
      match rule1 with
      | some s => some s
      | none =>
        let elims2 := (dfilter g.empty_cells fun x =>
          x ∉ comp.map (fun e => e.1) ∧ d ∈ g.candidates x.1 x.2 ∧
            (∃ b ∈ blue, cell_sees x.1 x.2 b.1 b.2 = true) ∧
            (∃ q ∈ green, cell_sees x.1 x.2 q.1 q.2 = true)).map fun x => (x.1, x.2, d)
        if elims2.isEmpty then
          scanStarts g d nbrs rest (visited ++ comp.map fun e => e.1)
        else some { strategy := "Simple Coloring", eliminations := elims2,
                    pattern_cells := comp.map fun e => e.1 }

/-- `find_simple_coloring` (Singles Chains). -/
def find_simple_coloring (g : Grid) : Option Step :=
  digitsList.findSome? fun d =>
    let edges := get_houses.filterMap fun h =>
      match dfilter h.2.2 (fun p => g.values p.1 p.2 = 0 ∧ d ∈ g.candidates p.1 p.2) with
      | [p, q] => some (p, q)
      | _ => none
    let keys := firstDedup (edges.flatMap fun e => [e.1, e.2])
    if keys.length < 4 then none
    else
      let nbrs := fun cell =>
        dfilter allCells fun nb => ∃ e ∈ edges, e = (cell, nb) ∨ e = (nb, cell)
      scanStarts g d nbrs keys []

/-! ### Tier 4 detectors -/

/-- `find_unique_rectangle` (Types 1 and 2). -/
def find_unique_rectangle (g : Grid) : Option Step :=
  (combos 2 digitsList).findSome? fun dpr =>
    match dpr with
    | [d1, d2] =>
      (combos 2 fins9).findSome? fun rpr =>
        match rpr with
        | [r1, r2] =>
          (combos 2 fins9).findSome? fun cpr =>
            match cpr with
            | [c1, c2] =>
              let cells : List Cell := [(r1, c1), (r1, c2), (r2, c1), (r2, c2)]
              if (firstDedup (cells.map fun p => box_of p.1 p.2)).length ≠ 2 then none
              else if ¬ ∀ p ∈ cells, g.values p.1 p.2 = 0 ∧
                  d1 ∈ g.candidates p.1 p.2 ∧ d2 ∈ g.candidates p.1 p.2 then none
              else
                let pair : Finset ℕ := {d1, d2}
                let floors := dfilter cells fun p => g.candidates p.1 p.2 = pair
                let roofs := dfilter cells fun p => g.candidates p.1 p.2 ≠ pair
                let type1 : Option Step :=
                  match floors.length, roofs with
                  | 3, [rf] =>
                    let elims := ([d1, d2].filter fun d =>
                      decide (d ∈ g.candidates rf.1 rf.2)).map fun d => (rf.1, rf.2, d)
                    if elims.isEmpty then none
                    else some { strategy := "Unique Rectangle", eliminations := elims,
                                pattern_cells := cells }
                  | _, _ => none
                match type1 with
                | some s => some s
                | none =>
                  match floors.length, roofs with
                  | 2, [rf1, rf2] =>
                    let extras1 := g.candidates rf1.1 rf1.2 \ pair
                    let extras2 := g.candidates rf2.1 rf2.2 \ pair
                    if extras1 = extras2 ∧ extras1.card = 1 then
                      let X := setMin extras1
                      let elims := (dfilter allCells fun x =>
                        x ∉ cells ∧ g.values x.1 x.2 = 0 ∧ X ∈ g.candidates x.1 x.2 ∧
                          cell_sees x.1 x.2 rf1.1 rf1.2 = true ∧
                          cell_sees x.1 x.2 rf2.1 rf2.2 = true).map fun x => (x.1, x.2, X)
                      if elims.isEmpty then none
                      else some { strategy := "Unique Rectangle", eliminations := elims,
                                  pattern_cells := cells }
                    else none
                  | _, _ => none
            | _ => none
        | _ => none
    | _ => none

/-- `find_w_wing`.  The bivalue pair digits are recovered as min/max; the
source tries both (bridge, eliminated) orders explicitly, so the unpacking
order of the Python set does not matter. -/
def find_w_wing (g : Grid) : Option Step :=
  let bivs := dfilter allCells fun p =>
    g.values p.1 p.2 = 0 ∧ (g.candidates p.1 p.2).card = 2
  (combos 2 bivs).findSome? fun pr =>
    match pr with
    | [p1, p2] =>
      if g.candidates p1.1 p1.2 ≠ g.candidates p2.1 p2.2 then none
      else if cell_sees p1.1 p1.2 p2.1 p2.2 then none
      else
        let A := setMin (g.candidates p1.1 p1.2)
        let B := setMax (g.candidates p1.1 p1.2)
        [(A, B), (B, A)].findSome? fun br =>
          get_houses.findSome? fun h =>
            match dfilter h.2.2 (fun q => g.values q.1 q.2 = 0 ∧ br.1 ∈ g.candidates q.1 q.2) with
            | [la, ra] =>
              if (cell_sees la.1 la.2 p1.1 p1.2 = true ∧ cell_sees ra.1 ra.2 p2.1 p2.2 = true) ∨
                 (cell_sees la.1 la.2 p2.1 p2.2 = true ∧ cell_sees ra.1 ra.2 p1.1 p1.2 = true) then
                let elims := (dfilter allCells fun x =>
                  x ≠ p1 ∧ x ≠ p2 ∧ g.values x.1 x.2 = 0 ∧ br.2 ∈ g.candidates x.1 x.2 ∧
                    cell_sees x.1 x.2 p1.1 p1.2 = true ∧
                    cell_sees x.1 x.2 p2.1 p2.2 = true).map fun x => (x.1, x.2, br.2)
                if elims.isEmpty then none
                else some { strategy := "W-Wing", eliminations := elims,
                            pattern_cells := [la, ra, p1, p2] }
              else none
            | _ => none
    | _ => none

/-- `find_skyscraper`. -/
def find_skyscraper (g : Grid) : Option Step :=
  digitsList.findSome? fun d =>
    let row_two := fins9.filterMap fun r =>
      match dfilter fins9 (fun c => g.values r c = 0 ∧ d ∈ g.candidates r c) with
      | [c1, c2] => some (r, c1, c2)
      | _ => none
    let rowBased := (combos 2 row_two).findSome? fun pr =>
      match pr with
      | [(ra, ca1, ca2), (rb, cb1, cb2)] =>
        match [ca1, ca2].filter fun c => decide (c = cb1 ∨ c = cb2) with
        | [sc] =>
          let roof_a : Cell := (ra, if ca2 = sc then ca1 else ca2)
          let roof_b : Cell := (rb, if cb2 = sc then cb1 else cb2)
          if box_of roof_a.1 roof_a.2 = box_of roof_b.1 roof_b.2 then none
          else
            let elims := (dfilter allCells fun x =>
              x ≠ (ra, sc) ∧ x ≠ (rb, sc) ∧ x ≠ roof_a ∧ x ≠ roof_b ∧
                g.values x.1 x.2 = 0 ∧ d ∈ g.candidates x.1 x.2 ∧
                cell_sees x.1 x.2 roof_a.1 roof_a.2 = true ∧
                cell_sees x.1 x.2 roof_b.1 roof_b.2 = true).map fun x => (x.1, x.2, d)
            if elims.isEmpty then none
            else some { strategy := "Skyscraper", eliminations := elims,
                        pattern_cells := [(ra, sc), (rb, sc), roof_a, roof_b] }
        | _ => none
      | _ => none
    match rowBased with
    | some s => some s
    | none =>
      let col_two := fins9.filterMap fun c =>
        match dfilter fins9 (fun r => g.values r c = 0 ∧ d ∈ g.candidates r c) with
        | [r1, r2] => some (c, r1, r2)
        | _ => none
      (combos 2 col_two).findSome? fun pr =>
        match pr with
        | [(ca, ra1, ra2), (cb, rb1, rb2)] =>
          match [ra1, ra2].filter fun r => decide (r = rb1 ∨ r = rb2) with
          | [sr] =>
            let roof_a : Cell := (if ra2 = sr then ra1 else ra2, ca)
            let roof_b : Cell := (if rb2 = sr then rb1 else rb2, cb)
            if box_of roof_a.1 roof_a.2 = box_of roof_b.1 roof_b.2 then none
            else
              let elims := (dfilter allCells fun x =>
                x ≠ (sr, ca) ∧ x ≠ (sr, cb) ∧ x ≠ roof_a ∧ x ≠ roof_b ∧
                  g.values x.1 x.2 = 0 ∧ d ∈ g.candidates x.1 x.2 ∧
                  cell_sees x.1 x.2 roof_a.1 roof_a.2 = true ∧
                  cell_sees x.1 x.2 roof_b.1 roof_b.2 = true).map fun x => (x.1, x.2, d)
              if elims.isEmpty then none
              else some { strategy := "Skyscraper", eliminations := elims,
                          pattern_cells := [(sr, ca), (sr, cb), roof_a, roof_b] }
          | _ => none
        | _ => none

/-- `find_2_string_kite`. -/
def find_2_string_kite (g : Grid) : Option Step :=
  digitsList.findSome? fun d =>
    let row_two := fins9.filterMap fun r =>
      match dfilter fins9 (fun c => g.values r c = 0 ∧ d ∈ g.candidates r c) with
      | [c1, c2] => some (r, c1, c2)
      | _ => none
    let col_two := fins9.filterMap fun c =>
      match dfilter fins9 (fun r => g.values r c = 0 ∧ d ∈ g.candidates r c) with
      | [r1, r2] => some (c, r1, r2)
      | _ => none
    row_two.findSome? fun rcc =>
      match rcc with
      | (r, rc1, rc2) =>
        [rc1, rc2].findSome? fun pivot_c =>
          match col_two.find? fun e => e.1 = pivot_c with
          | none => none
          | some (_, cr1, cr2) =>
            if r ≠ cr1 ∧ r ≠ cr2 then none
            else
              let tail_c := if rc2 = pivot_c then rc1 else rc2
              let tail_r := if cr2 = r then cr1 else cr2
              let tail_row : Cell := (r, tail_c)
              let tail_col : Cell := (tail_r, pivot_c)
              if box_of tail_row.1 tail_row.2 = box_of tail_col.1 tail_col.2 then none
              else
                let elims := (dfilter allCells fun x =>
                  x ≠ (r, pivot_c) ∧ x ≠ tail_row ∧ x ≠ tail_col ∧
                    g.values x.1 x.2 = 0 ∧ d ∈ g.candidates x.1 x.2 ∧
                    cell_sees x.1 x.2 tail_row.1 tail_row.2 = true ∧
                    cell_sees x.1 x.2 tail_col.1 tail_col.2 = true).map fun x => (x.1, x.2, d)
                if elims.isEmpty then none
                else some { strategy := "2-String Kite", eliminations := elims,
                            pattern_cells := [(r, pivot_c), tail_row, tail_col] }

/-- `find_bug_plus_1`. -/
def find_bug_plus_1 (g : Grid) : Option Step :=
  let empty := g.empty_cells
  match dfilter empty fun p => (g.candidates p.1 p.2).card = 3 with
  | [pv] =>
    if ¬ ∀ p ∈ empty, p = pv ∨ (g.candidates p.1 p.2).card = 2 then none
    else
      let row_cells := dfilter (rowCells pv.1) fun p => g.values p.1 p.2 = 0
      let col_cells := dfilter (colCells pv.2) fun p => g.values p.1 p.2 = 0
      let box_cells := dfilter (cells_of_boxN (box_of pv.1 pv.2)) fun p => g.values p.1 p.2 = 0
      (sortAsc (g.candidates pv.1 pv.2)).findSome? fun d =>
        let rc := (dfilter row_cells fun p => d ∈ g.candidates p.1 p.2).length
        let cc := (dfilter col_cells fun p => d ∈ g.candidates p.1 p.2).length
        let bc := (dfilter box_cells fun p => d ∈ g.candidates p.1 p.2).length
        if rc % 2 = 1 ∧ cc % 2 = 1 ∧ bc % 2 = 1 then
          some { strategy := "BUG+1", placements := [(pv.1, pv.2, d)] }
        else none
  | _ => none

/-! ### Strategy registry, driver loop, rater -/

/-- `ALL_STRATEGIES`: the 21 detectors in canonical order. -/
def ALL_STRATEGIES : List (String × (Grid → Option Step)) :=
  [("Full House",         find_full_house),
   ("Naked Single",       find_naked_single),
   ("Hidden Single",      find_hidden_single),
   ("Naked Pair",         fun g => find_naked_set g 2),
   ("Hidden Pair",        fun g => find_hidden_set g 2),
   ("Naked Triple",       fun g => find_naked_set g 3),
   ("Hidden Triple",      fun g => find_hidden_set g 3),
   ("Naked Quad",         fun g => find_naked_set g 4),
   ("Hidden Quad",        fun g => find_hidden_set g 4),
   ("Pointing Pairs",     find_pointing_pairs),
   ("Box-Line Reduction", find_box_line_reduction),
   ("X-Wing",             find_x_wing),
   ("Swordfish",          find_swordfish),
   ("Y-Wing",             find_y_wing),
   ("XYZ-Wing",           find_xyz_wing),
   ("Simple Coloring",    find_simple_coloring),
   ("Unique Rectangle",   find_unique_rectangle),
   ("W-Wing",             find_w_wing),
   ("Skyscraper",         find_skyscraper),
   ("2-String Kite",      find_2_string_kite),
   ("BUG+1",              find_bug_plus_1)]

/-- The inner `for _, fn in ALL_STRATEGIES` scan of the driver: the first
detector that fires, together with its registry name. -/
def firstStep (g : Grid) : Option (String × Step) :=
  ALL_STRATEGIES.findSome? fun nf => (nf.2 g).map fun s => (nf.1, s)

/-- How a driver run ended. -/
inductive DOutcome : Type
  | solved : DOutcome
  | stuck : DOutcome
  | fuelOut : DOutcome
deriving DecidableEq, Repr

/-- The driver loop of `solve` / `_rate_difficulty`: while not solved, apply
the first step found, else stop.  The returned list is the emitted trace of
(registry name, step).  The fuel argument makes the recursion structural;
`driver_terminates` below shows that `gridFuel` is always enough, so the
`fuelOut` outcome never occurs at that fuel. -/
def driverLoop : ℕ → Grid → List (String × Step) × DOutcome
  | 0, _ => ([], DOutcome.fuelOut)
  | fuel + 1, g =>
    if g.is_solved then ([], DOutcome.solved)
    else
      match firstStep g with
      | none => ([], DOutcome.stuck)
      | some (n, s) =>
        let rest := driverLoop fuel (g.apply_step s)
        ((n, s) :: rest.1, rest.2)

/-- Sum of all candidate-set sizes. -/
def totalCands (g : Grid) : ℕ := ∑ p : Cell, (g.candidates p.1 p.2).card

/-- Number of empty cells. -/
def emptyCount (g : Grid) : ℕ :=
  (Finset.univ.filter fun p : Cell => g.values p.1 p.2 = 0).card

/-- Fuel that `driver_terminates` proves sufficient for any grid. -/
def gridFuel (g : Grid) : ℕ := totalCands g + emptyCount g + 1

/-- `solve` on initial values: the emitted trace and the outcome. -/
def solveRun (values : Fin 9 → Fin 9 → ℕ) : List (String × Step) × DOutcome :=
  driverLoop (gridFuel (Grid.init values)) (Grid.init values)

/-- `STRATEGY_TIER` from `sudoku_generator.py`. -/
def STRATEGY_TIER : List (String × ℕ) :=
  [("Full House", 1), ("Naked Single", 1), ("Hidden Single", 1),
   ("Naked Pair", 2), ("Hidden Pair", 2), ("Naked Triple", 2), ("Hidden Triple", 2),
   ("Naked Quad", 2), ("Hidden Quad", 2), ("Pointing Pairs", 2), ("Box-Line Reduction", 2),
   ("X-Wing", 3), ("Swordfish", 3), ("Y-Wing", 3), ("XYZ-Wing", 3), ("Simple Coloring", 3),
   ("Unique Rectangle", 4), ("W-Wing", 4), ("Skyscraper", 4), ("2-String Kite", 4),
   ("BUG+1", 4)]

/-- `STRATEGY_TIER.get(step.strategy, STRATEGY_TIER.get(name, 0))`. -/
def tierOf (name : String) (s : Step) : ℕ :=
  match STRATEGY_TIER.lookup s.strategy with
  | some t => t
  | none => (STRATEGY_TIER.lookup name).getD 0

/-- The tier of a registry strategy name under `STRATEGY_TIER` (0 when
absent). -/
def tierName (name : String) : ℕ := (STRATEGY_TIER.lookup name).getD 0

/-- The loop of `_rate_difficulty`, threading `max_tier`. -/
def rateLoop : ℕ → Grid → ℕ → Option ℕ
  | 0, _, _ => none
  | fuel + 1, g, maxTier =>
    if g.is_solved then some maxTier
    else
      match firstStep g with
      | none => some 0
      | some (n, s) => rateLoop fuel (g.apply_step s) (max maxTier (tierOf n s))

/-- `_rate_difficulty` on Fin-indexed values. -/
def rate (values : Fin 9 → Fin 9 → ℕ) : ℕ :=
  (rateLoop (gridFuel (Grid.init values)) (Grid.init values) 0).getD 0

/-! ### Puzzle file parsing (`read_puzzle`) -/

/-- `str.strip()`: drop leading and trailing whitespace. -/
def stripChars (l : List Char) : List Char :=
  ((l.dropWhile Char.isWhitespace).reverse.dropWhile Char.isWhitespace).reverse

/-- A valid puzzle line after stripping: exactly nine decimal digits.
(`Char.isDigit` is the ASCII reading of Python's `str.isdigit`.) -/
def validLine (l : List Char) : Bool :=
  (stripChars l).length = 9 && (stripChars l).all Char.isDigit

/-- `read_puzzle` on a list of file lines: keep the valid lines in order,
succeed iff exactly nine accumulated. -/
def read_puzzle (lines : List (List Char)) : Option (List (List ℕ)) :=
  let board := lines.foldl
    (fun acc line =>
      if validLine line then acc ++ [(stripChars line).map fun ch => ch.toNat - 48]
      else acc) []
  if board.length = 9 then some board else none

/-! ### Generator (`sudoku_generator.py`) -/

/-- A plain 9×9 board of digits (`list[list[int]]`); total function so that
the embedding never needs bounds proofs, all accesses are within 0–8. -/
def Board : Type := ℕ → ℕ → ℕ

/-- Functional update of a board cell. -/
def bset (b : Board) (r c d : ℕ) : Board :=
  fun r' c' => if r' = r ∧ c' = c then d else b r' c'

/-- The behaviour of Python's `random.Random`, abstracted: `randint seed i`
is the `i`-th `randint(0, 2**31-1)` drawn from a generator seeded with
`seed`; `shuffle seed k l` is the result of the `k`-th `shuffle` call of a
generator seeded with `seed`, applied to list `l`.  All theorems below hold
for every oracle, hence in particular for the Mersenne Twister. -/
structure RandomAlgo where
  randint : ℕ → ℕ → ℕ
  shuffle : ℕ → ℕ → List ℕ → List ℕ

/-- `_is_valid` of `generate_solution`: digit `d` absent from row, column
and box of `(r, c)`. -/
def sgIsValid (b : Board) (r c d : ℕ) : Bool :=
  ((List.range 9).all fun cc => b r cc != d) &&
  ((List.range 9).all fun rr => b rr c != d) &&
  ((List.range 3).all fun dr =>
    (List.range 3).all fun dc => b ((r / 3) * 3 + dr) ((c / 3) * 3 + dc) != d)

mutual
/-- `_backtrack(pos)` of `generate_solution` with `fuel = 81 - pos` cells
left; threads the RNG call counter `k`.  `sh` is the `shuffle` method of the
`random.Random` instance seeded with `seed`. -/
def btCell (sh : ℕ → ℕ → List ℕ → List ℕ) (seed : ℕ) :
    ℕ → Board → ℕ → Option Board × ℕ
  | 0, b, k => (some b, k)
  | fuel + 1, b, k =>
    let pos := 81 - (fuel + 1)
    btDigits sh seed fuel b (pos / 9) (pos % 9) (k + 1) (sh seed k digitsList)
termination_by fuel _ _ => (fuel, 0)

/-- The `for d in digits` loop of `_backtrack`. -/
def btDigits (sh : ℕ → ℕ → List ℕ → List ℕ) (seed : ℕ) :
    ℕ → Board → ℕ → ℕ → ℕ → List ℕ → Option Board × ℕ
  | _, _, _, _, k, [] => (none, k)
  | fuel, b, r, c, k, d :: ds =>
    if sgIsValid b r c d then
      match btCell sh seed fuel (bset b r c d) k with
      | (some sol, k') => (some sol, k')
      | (none, k') => btDigits sh seed fuel b r c k' ds
    else btDigits sh seed fuel b r c k ds
termination_by fuel _ _ _ _ ds => (fuel, ds.length + 1)
end

/-- `generate_solution`: randomised backtracking from the empty grid; the
all-zero grid if the search fails (it never does, but the embedding does not
rely on that). -/
def generate_solution (sh : ℕ → ℕ → List ℕ → List ℕ) (seed : ℕ) : Board :=
  match btCell sh seed 81 (fun _ _ => 0) 0 with
  | (some b, _) => b
  | (none, _) => fun _ _ => 0

/-- `_candidates` of `_has_unique_solution`: digits not used in the three
houses of `(r, c)`, ascending. -/
def huCandidates (b : Board) (r c : ℕ) : List ℕ :=
  digitsList.filter fun d => sgIsValid b r c d

/-- First empty position in reading order, as in `_solve`. -/
def firstEmptyPos (b : Board) : Option ℕ :=
  (List.range 81).find? fun pos => b (pos / 9) (pos % 9) == 0

/-- `_solve` of `_has_unique_solution`: count completions, stopping early at
two.  The recursion depth is the number of empty cells (≤ 81), so fuel 82
is never exhausted. -/
def solveCount : Board → ℕ → ℕ → ℕ
  | _, count, 0 => count
  | b, count, fuel + 1 =>
    match firstEmptyPos b with
    | none => count + 1
    | some pos =>
      (huCandidates b (pos / 9) (pos % 9)).foldl
        (fun cnt d =>
          if 2 ≤ cnt then cnt
          else solveCount (bset b (pos / 9) (pos % 9) d) cnt fuel)
        count
termination_by _ _ fuel => fuel

/-- `_has_unique_solution`. -/
def has_unique_solution (b : Board) : Bool := solveCount b 0 82 == 1

/-- `_rate_difficulty` on a plain board. -/
def rate_board (b : Board) : ℕ := rate fun r c => b r.val c.val

/-- `_EMPTY_RANGE.get(target_tier, (45, 55))`. -/
def EMPTY_RANGE : ℕ → ℕ × ℕ
  | 1 => (45, 55)
  | 2 => (55, 62)
  | 3 => (60, 64)
  | 4 => (64, 70)
  | _ => (45, 55)

/-- The hole-punching loop of `generate_puzzle`: clear each listed cell,
keep the removal only if the puzzle stays unique, stop at the tier's upper
bound. -/
def punchHoles (emptyMax : ℕ) : Board → List ℕ → ℕ → Board × ℕ
  | b, [], cnt => (b, cnt)
  | b, pos :: rest, cnt =>
    let r := pos / 9
    let c := pos % 9
    let saved := b r c
    let b' := bset b r c 0
    if has_unique_solution b' then
      if emptyMax ≤ cnt + 1 then (b', cnt + 1)
      else punchHoles emptyMax b' rest (cnt + 1)
    else punchHoles emptyMax (bset b' r c saved) rest cnt

/-- One `for attempt in range(max_attempts)` pass of `generate_puzzle`;
`i` is the attempt index, the second argument the attempts remaining. -/
def genAttempts (A : RandomAlgo) (targetTier seed emptyMin emptyMax : ℕ) :
    ℕ → ℕ → Option Board
  | _, 0 => none
  | i, n + 1 =>
    let attemptSeed := A.randint seed i
    let solution := generate_solution A.shuffle attemptSeed
    let cells := A.shuffle attemptSeed 0 (List.range 81)
    let pr := punchHoles emptyMax solution cells 0
    if pr.2 < emptyMin then genAttempts A targetTier seed emptyMin emptyMax (i + 1) n
    else
      let tier := rate_board pr.1
      if ((tier : ℤ) - (targetTier : ℤ)).natAbs ≤ 1 ∨ (4 ≤ targetTier ∧ tier = 0) then
        some pr.1
      else genAttempts A targetTier seed emptyMin emptyMax (i + 1) n

/-- `generate_puzzle`. -/
def generate_puzzle (A : RandomAlgo) (targetTier maxAttempts seed : ℕ) : Option Board :=
  genAttempts A targetTier seed (EMPTY_RANGE targetTier).1 (EMPTY_RANGE targetTier).2
    0 maxAttempts

/-! ### Invariants of the data model (§3 of the design) -/

/-- The cells of the three houses of `(r, c)` (with repetitions). -/
def houseCellsOf (r c : Fin 9) : List Cell :=
  rowCells r ++ colCells c ++ cells_of_boxN (box_of r c)

/-- The digits 1–9 not appearing in the row, column and box of `(r, c)`. -/
def missingDigits (g : Grid) (r c : Fin 9) : Finset ℕ :=
  digitsSet.filter fun d => ∀ p ∈ houseCellsOf r c, g.values p.1 p.2 ≠ d

/-- Invariant (1): every empty cell's candidate set equals the digits
missing from its three houses. -/
abbrev inv1 (g : Grid) : Prop :=
  ∀ r c, g.values r c = 0 → g.candidates r c = missingDigits g r c

/-- No house of the value assignment contains a repeated non-zero digit;
this is invariant (2) and also the spec's validity condition on an initial
board. -/
abbrev validValues (values : Fin 9 → Fin 9 → ℕ) : Prop :=
  ∀ h ∈ get_houses, (dfilter (h.2.2.map fun p => values p.1 p.2) (· ≠ 0)).Nodup

/-- Invariant (2) for a grid. -/
abbrev inv2 (g : Grid) : Prop := validValues g.values

/-- Invariant (3): every empty cell has a non-empty candidate set. -/
abbrev inv3 (g : Grid) : Prop :=
  ∀ r c, g.values r c = 0 → g.candidates r c ≠ ∅

/-- The weakening of invariant (1) that `apply_step` actually maintains:
candidates never contain a digit present in one of the cell's houses. -/
abbrev subsetInv (g : Grid) : Prop :=
  ∀ r c, g.values r c = 0 → g.candidates r c ⊆ missingDigits g r c

/-- All candidates lie in 1–9. -/
abbrev candRange (g : Grid) : Prop := ∀ r c, g.candidates r c ⊆ digitsSet

/-- The properties of a detector-returned step that drive progress: every
elimination names a currently-present candidate, every placement targets an
empty cell with a digit ≥ 1, and the step is non-trivial. -/
abbrev goodStep (g : Grid) (s : Step) : Prop :=
  (∀ e ∈ s.eliminations, e.2.2 ∈ g.candidates e.1 e.2.1) ∧
  (∀ p ∈ s.placements, g.values p.1 p.2.1 = 0 ∧ 1 ≤ p.2.2) ∧
  (s.placements ≠ [] ∨ s.eliminations ≠ [])

/-! ### Concrete boards used by the claims -/

/-- Valid board on which a Naked Pair fires immediately: cells R1C1 and R1C2
both have candidates {1, 2}, and so does R1C3, from which both digits get
eliminated. -/
def boardA : Fin 9 → Fin 9 → ℕ :=
  ![![0, 0, 0, 3, 4, 5, 6, 7, 8],
    ![9, 0, 0, 0, 0, 0, 0, 0, 0],
    ![0, 0, 0, 0, 0, 0, 0, 0, 0],
    ![0, 0, 0, 0, 0, 0, 0, 0, 0],
    ![0, 0, 0, 0, 0, 0, 0, 0, 0],
    ![0, 0, 0, 0, 0, 0, 0, 0, 0],
    ![0, 0, 0, 0, 0, 0, 0, 0, 0],
    ![0, 0, 0, 0, 0, 0, 0, 0, 0],
    ![0, 0, 0, 0, 0, 0, 0, 0, 0]]

/-- Valid but contradictory board: row 1 misses only digit 5 at R1C9, yet
column 9 already holds a 5, so the Full House placement duplicates it. -/
def boardB : Fin 9 → Fin 9 → ℕ :=
  ![![1, 2, 3, 4, 6, 7, 8, 9, 0],
    ![0, 0, 0, 0, 0, 0, 0, 0, 0],
    ![0, 0, 0, 0, 0, 0, 0, 0, 0],
    ![0, 0, 0, 0, 0, 0, 0, 0, 0],
    ![0, 0, 0, 0, 0, 0, 0, 0, 0],
    ![0, 0, 0, 0, 0, 0, 0, 0, 5],
    ![0, 0, 0, 0, 0, 0, 0, 0, 0],
    ![0, 0, 0, 0, 0, 0, 0, 0, 0],
    ![0, 0, 0, 0, 0, 0, 0, 0, 0]]

/-- Invalid board (two 5s in row 1) on which the driver nevertheless fires a
Full House step (row 9 has a single empty cell). -/
def boardDup : Fin 9 → Fin 9 → ℕ :=
  ![![5, 5, 0, 0, 0, 0, 0, 0, 0],
    ![0, 0, 0, 0, 0, 0, 0, 0, 0],
    ![0, 0, 0, 0, 0, 0, 0, 0, 0],
    ![0, 0, 0, 0, 0, 0, 0, 0, 0],
    ![0, 0, 0, 0, 0, 0, 0, 0, 0],
    ![0, 0, 0, 0, 0, 0, 0, 0, 0],
    ![0, 0, 0, 0, 0, 0, 0, 0, 0],
    ![0, 0, 0, 0, 0, 0, 0, 0, 0],
    ![1, 2, 3, 4, 5, 6, 7, 8, 0]]

/-- A complete valid solution grid (the cyclic Latin construction). -/
def boardSolved : Fin 9 → Fin 9 → ℕ :=
  ![![1, 2, 3, 4, 5, 6, 7, 8, 9],
    ![4, 5, 6, 7, 8, 9, 1, 2, 3],
    ![7, 8, 9, 1, 2, 3, 4, 5, 6],
    ![2, 3, 1, 5, 6, 4, 8, 9, 7],
    ![5, 6, 4, 8, 9, 7, 2, 3, 1],
    ![8, 9, 7, 2, 3, 1, 5, 6, 4],
    ![3, 1, 2, 6, 4, 5, 9, 7, 8],
    ![6, 4, 5, 9, 7, 8, 3, 1, 2],
    ![9, 7, 8, 3, 1, 2, 6, 4, 5]]

set_option maxRecDepth 100000
set_option maxHeartbeats 2000000

/-! ### Basic list and geometry lemmas -/

theorem findSome?_mem {α β : Type} {l : List α} {f : α → Option β} {b : β}
    (h : l.findSome? f = some b) : ∃ a ∈ l, f a = some b := by
  induction l with
  | nil => simp at h
  | cons x xs ih =>
    rw [List.findSome?_cons] at h
    rcases hx : f x with _ | y <;> rw [hx] at h
    · obtain ⟨a, ha, hfa⟩ := ih h
      exact ⟨a, List.mem_cons_of_mem _ ha, hfa⟩
    · exact ⟨x, List.mem_cons_self _ _, hx.trans h⟩

theorem mem_digitsList {d : ℕ} : d ∈ digitsList ↔ 1 ≤ d ∧ d ≤ 9 := by
  simp only [digitsList, List.mem_map, List.mem_range]
  constructor
  · rintro ⟨k, hk, rfl⟩; omega
  · rintro ⟨h1, h2⟩; exact ⟨d - 1, by omega, by omega⟩

theorem mem_digitsSet {d : ℕ} : d ∈ digitsSet ↔ 1 ≤ d ∧ d ≤ 9 := by
  simp [digitsSet]

theorem sortAsc_mem {s : Finset ℕ} {d : ℕ} (h : d ∈ sortAsc s) : d ∈ s := by
  simp only [sortAsc, List.mem_filter, decide_eq_true_eq] at h
  exact h.2

theorem setMin_mem {s : Finset ℕ} (hsub : s ⊆ digitsSet) (hne : s.Nonempty) :
    setMin s ∈ s := by
  obtain ⟨x, hx⟩ := hne
  have hxd : x ∈ sortAsc s := by
    simp only [sortAsc, List.mem_filter, decide_eq_true_eq]
    exact ⟨mem_digitsList.2 (mem_digitsSet.1 (hsub hx)), hx⟩
  rcases hl : sortAsc s with _ | ⟨y, ys⟩
  · rw [hl] at hxd; simp at hxd
  · have : setMin s = y := by simp [setMin, hl]
    rw [this]
    exact sortAsc_mem (by rw [hl]; exact List.mem_cons_self _ _)

theorem cell_sees_symm (r1 c1 r2 c2 : Fin 9) :
    cell_sees r1 c1 r2 c2 = cell_sees r2 c2 r1 c1 := by
  simp only [cell_sees, box_of]
  by_cases h : ((r1, c1) : Cell) = (r2, c2)
  · obtain ⟨h1, h2⟩ := Prod.mk.injEq .. ▸ h
    subst h1; subst h2; simp
  · rw [if_neg h, if_neg (fun hc => h (by cases hc; rfl))]
    simp only [decide_eq_decide]
    constructor
    · rintro (h | h | h) <;> [exact Or.inl h.symm; exact Or.inr (Or.inl h.symm);
        exact Or.inr (Or.inr h.symm)]
    · rintro (h | h | h) <;> [exact Or.inl h.symm; exact Or.inr (Or.inl h.symm);
        exact Or.inr (Or.inr h.symm)]

theorem mem_allCells (p : Cell) : p ∈ allCells := by
  rcases p with ⟨r, c⟩
  simp only [allCells, List.mem_flatMap, List.mem_map]
  exact ⟨r, mem_fins9 r, c, mem_fins9 c, rfl⟩

theorem box_of_lt (r c : Fin 9) : box_of r c < 9 := by
  have := r.isLt
  have := c.isLt
  simp only [box_of]
  omega

theorem mem_rowCells {r : Fin 9} {p : Cell} : p ∈ rowCells r ↔ p.1 = r := by
  rcases p with ⟨a, b⟩
  simp only [rowCells, List.mem_map, mem_fins9, true_and, Prod.mk.injEq]
  constructor
  · rintro ⟨x, h1, rfl⟩; exact h1.symm
  · rintro rfl; exact ⟨b, rfl, rfl⟩

theorem mem_colCells {c : Fin 9} {p : Cell} : p ∈ colCells c ↔ p.2 = c := by
  rcases p with ⟨a, b⟩
  simp only [colCells, List.mem_map, mem_fins9, true_and, Prod.mk.injEq]
  constructor
  · rintro ⟨x, h1, h2⟩; exact h2.symm
  · rintro rfl; exact ⟨a, rfl, rfl⟩

theorem mem_cells_of_box :
    ∀ (b : Fin 9) (p : Cell), p ∈ cells_of_box b ↔ box_of p.1 p.2 = b.val := by
  decide

theorem mem_houseCellsOf {r c : Fin 9} {p : Cell} :
    p ∈ houseCellsOf r c ↔ (p.1 = r ∨ p.2 = c ∨ box_of p.1 p.2 = box_of r c) := by
  have hb := box_of_lt r c
  simp only [houseCellsOf, cells_of_boxN, hb, dif_pos, List.mem_append,
    mem_rowCells, mem_colCells, mem_cells_of_box ⟨box_of r c, hb⟩ p]
  tauto

theorem cell_sees_iff {r1 c1 r2 c2 : Fin 9} :
    cell_sees r1 c1 r2 c2 = true ↔
      ((r1, c1) : Cell) ≠ (r2, c2) ∧
        (r1 = r2 ∨ c1 = c2 ∨ box_of r1 c1 = box_of r2 c2) := by
  simp only [cell_sees]
  split
  · simp [*]
  · next h => simp [h, decide_eq_true_eq]

theorem mem_houseCells_iff {r c : Fin 9} {p : Cell} :
    p ∈ houseCellsOf r c ↔ (p = (r, c) ∨ cell_sees r c p.1 p.2 = true) := by
  rw [mem_houseCellsOf, cell_sees_iff]
  rcases p with ⟨a, b⟩
  by_cases hp : ((a, b) : Cell) = (r, c)
  · obtain ⟨h1, h2⟩ := Prod.mk.injEq .. ▸ hp
    subst h1; subst h2
    simp
  · constructor
    · rintro (h | h | h) <;>
        exact Or.inr ⟨fun hc => hp (by cases hc; rfl),
          by simp only [eq_comm]; tauto⟩
    · rintro (h | ⟨hne, h | h | h⟩) <;> first
      | (cases h; simp)
      | (simp only [eq_comm] at h ⊢; tauto)

theorem self_not_sees (r c : Fin 9) : cell_sees r c r c = false := by
  simp [cell_sees]

/-! ### Structural lemmas about `apply_step` -/

theorem elimFold_values (l : List (Fin 9 × Fin 9 × ℕ)) (g : Grid) :
    (l.foldl Grid.elimOne g).values = g.values := by
  induction l generalizing g with
  | nil => rfl
  | cons e es ih => rw [List.foldl_cons, ih]; rfl

theorem elimFold_givens (l : List (Fin 9 × Fin 9 × ℕ)) (g : Grid) :
    (l.foldl Grid.elimOne g).givens = g.givens := by
  induction l generalizing g with
  | nil => rfl
  | cons e es ih => rw [List.foldl_cons, ih]; rfl

theorem placeOne_values (g : Grid) (p : Fin 9 × Fin 9 × ℕ) (r c : Fin 9) :
    (g.placeOne p).values r c =
      if (r, c) = ((p.1, p.2.1) : Cell) then p.2.2 else g.values r c := rfl

theorem placeFold_givens (l : List (Fin 9 × Fin 9 × ℕ)) (g : Grid) :
    (l.foldl Grid.placeOne g).givens = g.givens := by
  induction l generalizing g with
  | nil => rfl
  | cons e es ih => rw [List.foldl_cons, ih]; rfl

theorem apply_step_givens (g : Grid) (s : Step) :
    (g.apply_step s).givens = g.givens := by
  rw [Grid.apply_step, placeFold_givens, elimFold_givens]

theorem placeFold_values_of_not_placed (l : List (Fin 9 × Fin 9 × ℕ)) (g : Grid)
    (r c : Fin 9) (h : ∀ p ∈ l, ((r, c) : Cell) ≠ (p.1, p.2.1)) :
    (l.foldl Grid.placeOne g).values r c = g.values r c := by
  induction l generalizing g with
  | nil => rfl
  | cons p t ih =>
    rw [List.foldl_cons, ih _ fun q hq => h q (List.mem_cons_of_mem _ hq),
      placeOne_values, if_neg (h p (List.mem_cons_self _ _))]

theorem apply_step_values_of_not_placed (g : Grid) (s : Step) (r c : Fin 9)
    (h : ∀ p ∈ s.placements, ((r, c) : Cell) ≠ (p.1, p.2.1)) :
    (g.apply_step s).values r c = g.values r c := by
  rw [Grid.apply_step, placeFold_values_of_not_placed _ _ _ _ h, elimFold_values]

theorem remove_from_peers_cand_subset (g : Grid) (r c : Fin 9) (d : ℕ) (r' c' : Fin 9) :
    (g.remove_from_peers r c d).candidates r' c' ⊆ g.candidates r' c' := by
  simp only [Grid.remove_from_peers]
  split
  · exact Finset.erase_subset _ _
  · exact Finset.Subset.refl _

theorem elimOne_cand_subset (g : Grid) (e : Fin 9 × Fin 9 × ℕ) (r' c' : Fin 9) :
    (g.elimOne e).candidates r' c' ⊆ g.candidates r' c' := by
  simp only [Grid.elimOne]
  split
  · next h =>
    obtain ⟨h1, h2⟩ := Prod.mk.injEq .. ▸ h
    subst h1; subst h2
    exact Finset.erase_subset _ _
  · exact Finset.Subset.refl _

theorem placeOne_cand_subset (g : Grid) (p : Fin 9 × Fin 9 × ℕ) (r' c' : Fin 9) :
    (g.placeOne p).candidates r' c' ⊆ g.candidates r' c' := by
  refine (remove_from_peers_cand_subset _ _ _ _ _ _).trans ?_
  dsimp only
  split
  · next h =>
    obtain ⟨h1, h2⟩ := Prod.mk.injEq .. ▸ h
    subst h1; subst h2
    exact Finset.empty_subset _
  · exact Finset.Subset.refl _

theorem foldl_cand_subset {γ : Type} (op : Grid → γ → Grid)
    (hop : ∀ g x r c, (op g x).candidates r c ⊆ g.candidates r c)
    (l : List γ) (g : Grid) (r c : Fin 9) :
    ((l.foldl op g).candidates r c) ⊆ g.candidates r c := by
  induction l generalizing g with
  | nil => exact Finset.Subset.refl _
  | cons x t ih => exact (ih (op g x)).trans (hop g x r c)

theorem apply_step_cand_subset (g : Grid) (s : Step) (r c : Fin 9) :
    (g.apply_step s).candidates r c ⊆ g.candidates r c := by
  rw [Grid.apply_step]
  exact (foldl_cand_subset _ placeOne_cand_subset _ _ r c).trans
    (foldl_cand_subset _ elimOne_cand_subset _ _ r c)

theorem placeFold_values_zero (l : List (Fin 9 × Fin 9 × ℕ)) (g : Grid)
    (hd : ∀ p ∈ l, 1 ≤ p.2.2) (r c : Fin 9)
    (h : (l.foldl Grid.placeOne g).values r c = 0) : g.values r c = 0 := by
  induction l generalizing g with
  | nil => exact h
  | cons p t ih =>
    rw [List.foldl_cons] at h
    have h2 := ih (g.placeOne p) (fun q hq => hd q (List.mem_cons_of_mem _ hq)) h
    rw [placeOne_values] at h2
    split at h2
    · exact absurd h2.symm (by have := hd p (List.mem_cons_self _ _); omega)
    · exact h2

theorem placeFold_values_ne_zero (l : List (Fin 9 × Fin 9 × ℕ)) (g : Grid)
    (hd : ∀ p ∈ l, 1 ≤ p.2.2) (r c : Fin 9) (hv : g.values r c ≠ 0) :
    (l.foldl Grid.placeOne g).values r c ≠ 0 :=
  fun h => hv (placeFold_values_zero l g hd r c h)

/-! ### Candidate-count and empty-count measures -/

theorem totalCands_mono {g g' : Grid}
    (h : ∀ r c, g'.candidates r c ⊆ g.candidates r c) :
    totalCands g' ≤ totalCands g :=
  Finset.sum_le_sum fun p _ => Finset.card_le_card (h p.1 p.2)

theorem totalCands_lt_of {g g' : Grid} (q : Cell)
    (h : ∀ r c, g'.candidates r c ⊆ g.candidates r c)
    (hlt : (g'.candidates q.1 q.2).card < (g.candidates q.1 q.2).card) :
    totalCands g' < totalCands g :=
  Finset.sum_lt_sum (fun p _ => Finset.card_le_card (h p.1 p.2))
    ⟨q, Finset.mem_univ q, hlt⟩

theorem elimOne_totalCands_lt (g : Grid) (e : Fin 9 × Fin 9 × ℕ)
    (h : e.2.2 ∈ g.candidates e.1 e.2.1) :
    totalCands (g.elimOne e) < totalCands g := by
  refine totalCands_lt_of (e.1, e.2.1) (elimOne_cand_subset g e) ?_
  dsimp only
  have : (g.elimOne e).candidates e.1 e.2.1 = (g.candidates e.1 e.2.1).erase e.2.2 := by
    simp [Grid.elimOne]
  rw [this, Finset.card_erase_of_mem h]
  have : 0 < (g.candidates e.1 e.2.1).card := Finset.card_pos.2 ⟨_, h⟩
  omega

theorem placeOne_cand_self (g : Grid) (p : Fin 9 × Fin 9 × ℕ) :
    (g.placeOne p).candidates p.1 p.2.1 = ∅ := by
  simp [Grid.placeOne, Grid.remove_from_peers, self_not_sees]

theorem placeOne_totalCands_lt (g : Grid) (p : Fin 9 × Fin 9 × ℕ)
    (h : (g.candidates p.1 p.2.1).Nonempty) :
    totalCands (g.placeOne p) < totalCands g := by
  refine totalCands_lt_of (p.1, p.2.1) (placeOne_cand_subset g p) ?_
  rw [placeOne_cand_self]
  simpa [Finset.card_pos] using h

theorem apply_step_totalCands_le (g : Grid) (s : Step) :
    totalCands (g.apply_step s) ≤ totalCands g :=
  totalCands_mono fun r c => apply_step_cand_subset g s r c

theorem apply_step_emptyCount_le (g : Grid) (s : Step)
    (hd : ∀ p ∈ s.placements, 1 ≤ p.2.2) :
    emptyCount (g.apply_step s) ≤ emptyCount g := by
  refine Finset.card_le_card fun p hp => ?_
  rw [Finset.mem_filter] at hp ⊢
  refine ⟨Finset.mem_univ p, ?_⟩
  have h0 := hp.2
  rw [Grid.apply_step] at h0
  have := placeFold_values_zero _ _ hd p.1 p.2 h0
  rwa [elimFold_values] at this

theorem elimFold_totalCands_le (l : List (Fin 9 × Fin 9 × ℕ)) (g : Grid) :
    totalCands (l.foldl Grid.elimOne g) ≤ totalCands g :=
  totalCands_mono fun r c => foldl_cand_subset _ elimOne_cand_subset l g r c

theorem placeFold_totalCands_le (l : List (Fin 9 × Fin 9 × ℕ)) (g : Grid) :
    totalCands (l.foldl Grid.placeOne g) ≤ totalCands g :=
  totalCands_mono fun r c => foldl_cand_subset _ placeOne_cand_subset l g r c

/-- A good step strictly decreases the total number of candidates, given
invariant (3) (used only when the step is a placement). -/
theorem goodStep_totalCands_lt {g : Grid} {s : Step} (hg : goodStep g s)
    (h3 : inv3 g) : totalCands (g.apply_step s) < totalCands g := by
  obtain ⟨helim, hplace, hne⟩ := hg
  rcases hel : s.eliminations with _ | ⟨e, es⟩
  · rcases hpl : s.placements with _ | ⟨p, t⟩
    · rcases hne with h | h
      · exact absurd hpl h
      · exact absurd hel h
    · rw [Grid.apply_step, hel, hpl]
      simp only [List.foldl_nil, List.foldl_cons]
      refine (placeFold_totalCands_le t (g.placeOne p)).trans_lt ?_
      refine placeOne_totalCands_lt g p (Finset.nonempty_iff_ne_empty.2 ?_)
      exact h3 p.1 p.2.1 (hplace p (by rw [hpl]; exact List.mem_cons_self _ _)).1
  · rw [Grid.apply_step, hel]
    simp only [List.foldl_cons]
    refine (placeFold_totalCands_le _ _).trans_lt ?_
    refine (elimFold_totalCands_le es (g.elimOne e)).trans_lt ?_
    exact elimOne_totalCands_lt g e (helim e (by rw [hel]; exact List.mem_cons_self _ _))

/-- A good step strictly decreases `totalCands + emptyCount`, with no
invariant assumption; this is the driver's termination measure. -/
theorem goodStep_mu_lt {g : Grid} {s : Step} (hg : goodStep g s) :
    totalCands (g.apply_step s) + emptyCount (g.apply_step s) <
      totalCands g + emptyCount g := by
  obtain ⟨helim, hplace, hne⟩ := hg
  have hd1 : ∀ p ∈ s.placements, 1 ≤ p.2.2 := fun p hp => (hplace p hp).2
  rcases hpl : s.placements with _ | ⟨p, t⟩
  · have hel : s.eliminations ≠ [] := by
      rcases hne with h | h
      · exact absurd hpl h
      · exact h
    rcases hel2 : s.eliminations with _ | ⟨e, es⟩
    · exact absurd hel2 hel
    · have h1 : totalCands (g.apply_step s) < totalCands g := by
        rw [Grid.apply_step, hpl, hel2]
        simp only [List.foldl_nil, List.foldl_cons]
        refine (elimFold_totalCands_le es (g.elimOne e)).trans_lt ?_
        exact elimOne_totalCands_lt g e
          (helim e (by rw [hel2]; exact List.mem_cons_self _ _))
      have h2 : emptyCount (g.apply_step s) = emptyCount g := by
        have hv : (g.apply_step s).values = g.values := by
          rw [Grid.apply_step, hpl]
          simp only [List.foldl_nil]
          exact elimFold_values _ _
        simp only [emptyCount, hv]
      omega
  · have hvalbefore : g.values p.1 p.2.1 = 0 :=
      (hplace p (by rw [hpl]; exact List.mem_cons_self _ _)).1
    have hvalafter : (g.apply_step s).values p.1 p.2.1 ≠ 0 := by
      rw [Grid.apply_step, hpl]
      simp only [List.foldl_cons]
      refine placeFold_values_ne_zero t _ (fun q hq => hd1 q (by rw [hpl]; exact List.mem_cons_of_mem _ hq)) _ _ ?_
      rw [placeOne_values, if_pos rfl]
      have := hd1 p (by rw [hpl]; exact List.mem_cons_self _ _)
      omega
    have h2 : emptyCount (g.apply_step s) < emptyCount g := by
      refine Finset.card_lt_card ?_
      rw [Finset.ssubset_def]
      constructor
      · intro q hq
        rw [Finset.mem_filter] at hq ⊢
        refine ⟨Finset.mem_univ q, ?_⟩
        have h0 := hq.2
        rw [Grid.apply_step] at h0
        have := placeFold_values_zero _ _ hd1 q.1 q.2 h0
        rwa [elimFold_values] at this
      · intro hcon
        have hmem : ((p.1, p.2.1) : Cell) ∈
            Finset.univ.filter fun q : Cell => g.values q.1 q.2 = 0 := by
          rw [Finset.mem_filter]
          exact ⟨Finset.mem_univ _, hvalbefore⟩
        have := hcon hmem
        rw [Finset.mem_filter] at this
        exact hvalafter this.2
    have h1 : totalCands (g.apply_step s) ≤ totalCands g := apply_step_totalCands_le g s
    omega

/-! ### Per-detector step properties -/

theorem isEmpty_false_ne_nil {α : Type} {l : List α} (h : ¬ l.isEmpty = true) :
    l ≠ [] := by
  cases l
  · simp at h
  · simp

theorem find_full_house_good {g : Grid} {s : Step}
    (h : find_full_house g = some s) : goodStep g s ∧ s.strategy = "Full House" := by
  obtain ⟨hs, hmem, hh⟩ := findSome?_mem h
  split at hh
  · next r c heq =>
    try dsimp only at hh
    split at hh
    · next d rest heq2 =>
      obtain rfl : _ = s := Option.some.inj hh
      refine ⟨⟨by simp, ?_, Or.inl (by simp)⟩, rfl⟩
      intro p hp
      simp only [List.mem_singleton] at hp
      subst hp
      have hrc : ((r, c) : Cell) ∈ dfilter hs.2.2 fun p => g.values p.1 p.2 = 0 := by
        rw [heq]; exact List.mem_singleton.2 rfl
      have hd : d ∈ digitsList :=
        List.mem_of_mem_filter (heq2 ▸ List.mem_cons_self d rest)
      exact ⟨(mem_dfilter.1 hrc).2, (mem_digitsList.1 hd).1⟩
    · exact absurd hh (by simp)
  · exact absurd hh (by simp)

theorem find_naked_single_good {g : Grid} {s : Step} (hr : candRange g)
    (h : find_naked_single g = some s) : goodStep g s ∧ s.strategy = "Naked Single" := by
  obtain ⟨p, hmem, hh⟩ := findSome?_mem h
  split at hh
  · next hcond =>
    obtain rfl : _ = s := Option.some.inj hh
    refine ⟨⟨by simp, ?_, Or.inl (by simp)⟩, rfl⟩
    intro q hq
    simp only [List.mem_singleton] at hq
    subst hq
    refine ⟨hcond.1, ?_⟩
    have hne : (g.candidates p.1 p.2).Nonempty := by
      rw [← Finset.card_pos, hcond.2]; omega
    have := setMin_mem (hr p.1 p.2) hne
    exact (mem_digitsSet.1 (hr p.1 p.2 this)).1
  · exact absurd hh (by simp)

theorem find_hidden_single_good {g : Grid} {s : Step}
    (h : find_hidden_single g = some s) : goodStep g s ∧ s.strategy = "Hidden Single" := by
  obtain ⟨hs, hmem, hh⟩ := findSome?_mem h
  obtain ⟨d, hdmem, hh⟩ := findSome?_mem hh
  split at hh
  · next r c heq =>
    obtain rfl : _ = s := Option.some.inj hh
    refine ⟨⟨by simp, ?_, Or.inl (by simp)⟩, rfl⟩
    intro q hq
    simp only [List.mem_singleton] at hq
    subst hq
    have hrc : ((r, c) : Cell) ∈ dfilter hs.2.2 fun p =>
        g.values p.1 p.2 = 0 ∧ d ∈ g.candidates p.1 p.2 := by
      rw [heq]; exact List.mem_singleton.2 rfl
    exact ⟨(mem_dfilter.1 hrc).2.1, (mem_digitsList.1 hdmem).1⟩
  · exact absurd hh (by simp)

theorem find_naked_set_good {g : Grid} {s : Step} {size : ℕ}
    (h : find_naked_set g size = some s) :
    goodStep g s ∧ s.strategy = "Naked " ++ setName size := by
  obtain ⟨hs, hmem, hh⟩ := findSome?_mem h
  try dsimp only at hh
  obtain ⟨combo, hcmem, hh⟩ := findSome?_mem hh
  try dsimp only at hh
  split at hh
  · split at hh
    · exact absurd hh (by simp)
    · next hguard =>
      obtain rfl : _ = s := Option.some.inj hh
      refine ⟨⟨?_, by simp, Or.inr (isEmpty_false_ne_nil hguard)⟩, rfl⟩
      intro e he
      simp only [List.mem_flatMap, List.mem_map, List.mem_filter, mem_dfilter,
        decide_eq_true_eq] at he
      obtain ⟨p, _, d, ⟨_, hd2⟩, rfl⟩ := he
      exact hd2
  · exact absurd hh (by simp)

theorem find_hidden_set_good {g : Grid} {s : Step} {size : ℕ}
    (h : find_hidden_set g size = some s) :
    goodStep g s ∧ s.strategy = "Hidden " ++ setName size := by
  obtain ⟨hs, hmem, hh⟩ := findSome?_mem h
  try dsimp only at hh
  split at hh
  · exact absurd hh (by simp)
  · obtain ⟨dc, hdcmem, hh⟩ := findSome?_mem hh
    try dsimp only at hh
    split at hh
    · split at hh
      · exact absurd hh (by simp)
      · next hguard =>
        obtain rfl : _ = s := Option.some.inj hh
        refine ⟨⟨?_, by simp, Or.inr (isEmpty_false_ne_nil hguard)⟩, rfl⟩
        intro e he
        simp only [List.mem_flatMap, List.mem_map, List.mem_filter, mem_dfilter,
          decide_eq_true_eq] at he
        obtain ⟨p, _, d, ⟨hd1, _⟩, rfl⟩ := he
        exact sortAsc_mem hd1
    · exact absurd hh (by simp)

theorem find_pointing_pairs_good {g : Grid} {s : Step}
    (h : find_pointing_pairs g = some s) :
    goodStep g s ∧ (s.strategy = "Pointing Pair" ∨ s.strategy = "Pointing Triple") := by
  obtain ⟨box, hboxmem, hh⟩ := findSome?_mem h
  obtain ⟨d, hdmem, hh⟩ := findSome?_mem hh
  try dsimp only at hh
  split at hh
  · exact absurd hh (by simp)
  · split at hh
    · next s' heqrow =>
      obtain rfl : _ = s := Option.some.inj hh
      split at heqrow
      · next row heqrows =>
        split at heqrow
        · exact absurd heqrow (by simp)
        · next hguard =>
          obtain rfl : _ = s' := Option.some.inj heqrow
          refine ⟨⟨?_, by simp, Or.inr (isEmpty_false_ne_nil hguard)⟩, ?_⟩
          · intro e he
            simp only [List.mem_map, mem_dfilter] at he
            obtain ⟨col, ⟨_, _, _, hc⟩, rfl⟩ := he
            exact hc
          · dsimp only
            split
            · exact Or.inl rfl
            · exact Or.inr rfl
      · exact absurd heqrow (by simp)
    · split at hh
      · next col heqcols =>
        split at hh
        · exact absurd hh (by simp)
        · next hguard =>
          obtain rfl : _ = s := Option.some.inj hh
          refine ⟨⟨?_, by simp, Or.inr (isEmpty_false_ne_nil hguard)⟩, ?_⟩
          · intro e he
            simp only [List.mem_map, mem_dfilter] at he
            obtain ⟨rr, ⟨_, _, _, hc⟩, rfl⟩ := he
            exact hc
          · dsimp only
            split
            · exact Or.inl rfl
            · exact Or.inr rfl
      · exact absurd hh (by simp)

theorem find_box_line_reduction_good {g : Grid} {s : Step}
    (h : find_box_line_reduction g = some s) :
    goodStep g s ∧ s.strategy = "Box-Line Reduction" := by
  obtain ⟨hs, hmem, hh⟩ := findSome?_mem h
  split at hh
  · exact absurd hh (by simp)
  · obtain ⟨d, hdmem, hh⟩ := findSome?_mem hh
    try dsimp only at hh
    split at hh
    · exact absurd hh (by simp)
    · split at hh
      · next box heqbox =>
        split at hh
        · exact absurd hh (by simp)
        · next hguard =>
          obtain rfl : _ = s := Option.some.inj hh
          refine ⟨⟨?_, by simp, Or.inr (isEmpty_false_ne_nil hguard)⟩, rfl⟩
          intro e he
          simp only [List.mem_map, mem_dfilter] at he
          obtain ⟨p, ⟨_, _, _, hc⟩, rfl⟩ := he
          exact hc
      · exact absurd hh (by simp)

theorem find_x_wing_good {g : Grid} {s : Step}
    (h : find_x_wing g = some s) : goodStep g s ∧ s.strategy = "X-Wing" := by
  obtain ⟨d, hdmem, hh⟩ := findSome?_mem h
  try dsimp only at hh
  split at hh
  · next s' heqrow =>
    obtain rfl : _ = s := Option.some.inj hh
    obtain ⟨pr, hprmem, hpr⟩ := findSome?_mem heqrow
    split at hpr
    · split at hpr
      · split at hpr
        · exact absurd hpr (by simp)
        · next hguard =>
          obtain rfl : _ = s' := Option.some.inj hpr
          refine ⟨⟨?_, by simp, Or.inr (isEmpty_false_ne_nil hguard)⟩, rfl⟩
          intro e he
          simp only [List.mem_flatMap, List.mem_map, mem_dfilter] at he
          obtain ⟨col, _, r, ⟨_, _, _, _, hc⟩, rfl⟩ := he
          exact hc
      · exact absurd hpr (by simp)
    · exact absurd hpr (by simp)
  · obtain ⟨pr, hprmem, hpr⟩ := findSome?_mem hh
    split at hpr
    · split at hpr
      · split at hpr
        · exact absurd hpr (by simp)
        · next hguard =>
          obtain rfl : _ = s := Option.some.inj hpr
          refine ⟨⟨?_, by simp, Or.inr (isEmpty_false_ne_nil hguard)⟩, rfl⟩
          intro e he
          simp only [List.mem_flatMap, List.mem_map, mem_dfilter] at he
          obtain ⟨row, _, col, ⟨_, _, _, _, hc⟩, rfl⟩ := he
          exact hc
      · exact absurd hpr (by simp)
    · exact absurd hpr (by simp)

theorem find_swordfish_good {g : Grid} {s : Step}
    (h : find_swordfish g = some s) : goodStep g s ∧ s.strategy = "Swordfish" := by
  obtain ⟨d, hdmem, hh⟩ := findSome?_mem h
  try dsimp only at hh
  split at hh
  · next s' heqrow =>
    obtain rfl : _ = s := Option.some.inj hh
    obtain ⟨tr, htrmem, htr⟩ := findSome?_mem heqrow
    split at htr
    · try dsimp only at htr
      split at htr
      · split at htr
        · exact absurd htr (by simp)
        · next hguard =>
          obtain rfl : _ = s' := Option.some.inj htr
          refine ⟨⟨?_, by simp, Or.inr (isEmpty_false_ne_nil hguard)⟩, rfl⟩
          intro e he
          simp only [List.mem_flatMap, List.mem_map, mem_dfilter] at he
          obtain ⟨c, _, r, ⟨_, _, _, _, _, hc⟩, rfl⟩ := he
          exact hc
      · exact absurd htr (by simp)
    · exact absurd htr (by simp)
  · obtain ⟨tr, htrmem, htr⟩ := findSome?_mem hh
    split at htr
    · try dsimp only at htr
      split at htr
      · split at htr
        · exact absurd htr (by simp)
        · next hguard =>
          obtain rfl : _ = s := Option.some.inj htr
          refine ⟨⟨?_, by simp, Or.inr (isEmpty_false_ne_nil hguard)⟩, rfl⟩
          intro e he
          simp only [List.mem_flatMap, List.mem_map, mem_dfilter] at he
          obtain ⟨r, _, c, ⟨_, _, _, _, _, hc⟩, rfl⟩ := he
          exact hc
      · exact absurd htr (by simp)
    · exact absurd htr (by simp)

theorem find_y_wing_good {g : Grid} {s : Step}
    (h : find_y_wing g = some s) : goodStep g s ∧ s.strategy = "Y-Wing" := by
  obtain ⟨pv, hpvmem, hh⟩ := findSome?_mem h
  try dsimp only at hh
  obtain ⟨pr, hprmem, hpr⟩ := findSome?_mem hh
  split at hpr
  · try dsimp only at hpr
    split at hpr
    · exact absurd hpr (by simp)
    · split at hpr
      · split at hpr
        · split at hpr
          · exact absurd hpr (by simp)
          · next hguard =>
            obtain rfl : _ = s := Option.some.inj hpr
            refine ⟨⟨?_, by simp, Or.inr (isEmpty_false_ne_nil hguard)⟩, rfl⟩
            intro e he
            simp only [List.mem_map, mem_dfilter] at he
            obtain ⟨x, ⟨_, _, _, _, hc, _⟩, rfl⟩ := he
            exact hc
        · exact absurd hpr (by simp)
      · exact absurd hpr (by simp)
  · exact absurd hpr (by simp)

theorem find_xyz_wing_good {g : Grid} {s : Step}
    (h : find_xyz_wing g = some s) : goodStep g s ∧ s.strategy = "XYZ-Wing" := by
  obtain ⟨pv, hpvmem, hh⟩ := findSome?_mem h
  try dsimp only at hh
  obtain ⟨pr, hprmem, hpr⟩ := findSome?_mem hh
  split at hpr
  · try dsimp only at hpr
    split at hpr
    · exact absurd hpr (by simp)
    · split at hpr
      · split at hpr
        · exact absurd hpr (by simp)
        · next hguard =>
          obtain rfl : _ = s := Option.some.inj hpr
          refine ⟨⟨?_, by simp, Or.inr (isEmpty_false_ne_nil hguard)⟩, rfl⟩
          intro e he
          simp only [List.mem_map, mem_dfilter] at he
          obtain ⟨x, ⟨_, _, _, _, hc, _⟩, rfl⟩ := he
          exact hc
      · exact absurd hpr (by simp)
  · exact absurd hpr (by simp)

theorem scanStarts_good {g : Grid} {d : ℕ} {nbrs : Cell → List Cell}
    {s : Step} : ∀ (starts visited : List Cell),
    scanStarts g d nbrs starts visited = some s →
    goodStep g s ∧ s.strategy = "Simple Coloring" := by
  intro starts
  induction starts with
  | nil => intro visited h; simp [scanStarts] at h
  | cons start rest ih =>
    intro visited h
    rw [scanStarts] at h
    split at h
    · exact ih _ h
    · try dsimp only at h
      split at h
      · next s' heq =>
        obtain rfl : _ = s := Option.some.inj h
        obtain ⟨same, hsamemem, hsame⟩ := findSome?_mem heq
        obtain ⟨pr, hprmem, hpr⟩ := findSome?_mem hsame
        split at hpr
        · split at hpr
          · split at hpr
            · exact absurd hpr (by simp)
            · next hguard =>
              obtain rfl : _ = s' := Option.some.inj hpr
              refine ⟨⟨?_, by simp, Or.inr (isEmpty_false_ne_nil hguard)⟩, rfl⟩
              intro e he
              simp only [List.mem_map, mem_dfilter] at he
              obtain ⟨x, ⟨_, hc⟩, rfl⟩ := he
              exact hc
          · exact absurd hpr (by simp)
        · exact absurd hpr (by simp)
      · split at h
        · exact ih _ h
        · obtain rfl : _ = s := Option.some.inj h
          next hguard =>
            refine ⟨⟨?_, by simp, Or.inr (isEmpty_false_ne_nil hguard)⟩, rfl⟩
            intro e he
            simp only [List.mem_map, mem_dfilter] at he
            obtain ⟨x, ⟨_, _, hc, _⟩, rfl⟩ := he
            exact hc

theorem find_simple_coloring_good {g : Grid} {s : Step}
    (h : find_simple_coloring g = some s) :
    goodStep g s ∧ s.strategy = "Simple Coloring" := by
  obtain ⟨d, hdmem, hh⟩ := findSome?_mem h
  try dsimp only at hh
  split at hh
  · exact absurd hh (by simp)
  · exact scanStarts_good _ _ hh

theorem find_unique_rectangle_good {g : Grid} {s : Step}
    (h : find_unique_rectangle g = some s) :
    goodStep g s ∧ s.strategy = "Unique Rectangle" := by
  obtain ⟨dpr, hdprmem, hh⟩ := findSome?_mem h
  split at hh
  · obtain ⟨rpr, hrprmem, hh⟩ := findSome?_mem hh
    split at hh
    · obtain ⟨cpr, hcprmem, hh⟩ := findSome?_mem hh
      split at hh
      · try dsimp only at hh
        split at hh
        · exact absurd hh (by simp)
        · split at hh
          · exact absurd hh (by simp)
          · split at hh
            · next s' heq1 =>
              obtain rfl : _ = s := Option.some.inj hh
              split at heq1
              · split at heq1
                · exact absurd heq1 (by simp)
                · next hguard =>
                  obtain rfl : _ = s' := Option.some.inj heq1
                  refine ⟨⟨?_, by simp, Or.inr (isEmpty_false_ne_nil hguard)⟩, rfl⟩
                  intro e he
                  simp only [List.mem_map, List.mem_filter, decide_eq_true_eq] at he
                  obtain ⟨d, ⟨_, hc⟩, rfl⟩ := he
                  exact hc
              · exact absurd heq1 (by simp)
            · split at hh
              · split at hh
                · split at hh
                  · exact absurd hh (by simp)
                  · next hguard =>
                    obtain rfl : _ = s := Option.some.inj hh
                    refine ⟨⟨?_, by simp, Or.inr (isEmpty_false_ne_nil hguard)⟩, rfl⟩
                    intro e he
                    simp only [List.mem_map, mem_dfilter] at he
                    obtain ⟨x, ⟨_, _, _, hc, _⟩, rfl⟩ := he
                    exact hc
                · exact absurd hh (by simp)
              · exact absurd hh (by simp)
      · exact absurd hh (by simp)
    · exact absurd hh (by simp)
  · exact absurd hh (by simp)

theorem find_w_wing_good {g : Grid} {s : Step}
    (h : find_w_wing g = some s) : goodStep g s ∧ s.strategy = "W-Wing" := by
  obtain ⟨pr, hprmem, hh⟩ := findSome?_mem h
  split at hh
  · try dsimp only at hh
    split at hh
    · exact absurd hh (by simp)
    · split at hh
      · exact absurd hh (by simp)
      · obtain ⟨br, hbrmem, hh⟩ := findSome?_mem hh
        obtain ⟨hs, hhsmem, hh⟩ := findSome?_mem hh
        split at hh
        · split at hh
          · split at hh
            · exact absurd hh (by simp)
            · next hguard =>
              obtain rfl : _ = s := Option.some.inj hh
              refine ⟨⟨?_, by simp, Or.inr (isEmpty_false_ne_nil hguard)⟩, rfl⟩
              intro e he
              simp only [List.mem_map, mem_dfilter] at he
              obtain ⟨x, ⟨_, _, _, _, hc, _⟩, rfl⟩ := he
              exact hc
          · exact absurd hh (by simp)
        · exact absurd hh (by simp)
  · exact absurd hh (by simp)

theorem find_skyscraper_good {g : Grid} {s : Step}
    (h : find_skyscraper g = some s) : goodStep g s ∧ s.strategy = "Skyscraper" := by
  obtain ⟨d, hdmem, hh⟩ := findSome?_mem h
  try dsimp only at hh
  split at hh
  · next s' heqrow =>
    obtain rfl : _ = s := Option.some.inj hh
    obtain ⟨pr, hprmem, hpr⟩ := findSome?_mem heqrow
    iterate 8 (all_goals try split at hpr)
    all_goals first
      | exact Option.noConfusion hpr
      | (obtain rfl := Option.some.inj hpr
         refine ⟨⟨?_, by simp, Or.inr (isEmpty_false_ne_nil (by assumption))⟩, rfl⟩
         intro e he
         simp only [List.mem_map, mem_dfilter] at he
         obtain ⟨x, hx, rfl⟩ := he
         exact hx.2.2.2.2.2.2.1)
  · obtain ⟨pr, hprmem, hpr⟩ := findSome?_mem hh
    iterate 8 (all_goals try split at hpr)
    all_goals first
      | exact Option.noConfusion hpr
      | (obtain rfl := Option.some.inj hpr
         refine ⟨⟨?_, by simp, Or.inr (isEmpty_false_ne_nil (by assumption))⟩, rfl⟩
         intro e he
         simp only [List.mem_map, mem_dfilter] at he
         obtain ⟨x, hx, rfl⟩ := he
         exact hx.2.2.2.2.2.2.1)

theorem find_2_string_kite_good {g : Grid} {s : Step}
    (h : find_2_string_kite g = some s) :
    goodStep g s ∧ s.strategy = "2-String Kite" := by
  obtain ⟨d, hdmem, hh⟩ := findSome?_mem h
  try dsimp only at hh
  obtain ⟨rcc, hrccmem, hrcc⟩ := findSome?_mem hh
  obtain ⟨pivot_c, hpivmem, hpiv⟩ := findSome?_mem hrcc
  iterate 8 (all_goals try split at hpiv)
  all_goals first
    | exact Option.noConfusion hpiv
    | (obtain rfl := Option.some.inj hpiv
       refine ⟨⟨?_, by simp, Or.inr (isEmpty_false_ne_nil (by assumption))⟩, rfl⟩
       intro e he
       simp only [List.mem_map, mem_dfilter] at he
       obtain ⟨x, hx, rfl⟩ := he
       exact hx.2.2.2.2.2.1)

theorem find_bug_plus_1_good {g : Grid} {s : Step} (hr : candRange g)
    (h : find_bug_plus_1 g = some s) : goodStep g s ∧ s.strategy = "BUG+1" := by
  rw [find_bug_plus_1] at h
  try dsimp only at h
  split at h
  · next pv heq =>
    split at h
    · exact Option.noConfusion h
    · obtain ⟨d, hdmem, hd⟩ := findSome?_mem h
      try dsimp only at hd
      split at hd
      · obtain rfl : _ = s := Option.some.inj hd
        refine ⟨⟨by simp, ?_, Or.inl (by simp)⟩, rfl⟩
        intro q hq
        simp only [List.mem_singleton] at hq
        subst hq
        have hpv : pv ∈ dfilter g.empty_cells fun p => (g.candidates p.1 p.2).card = 3 := by
          rw [heq]; exact List.mem_singleton.2 rfl
        have hpv2 := (mem_dfilter.1 hpv).1
        simp only [Grid.empty_cells, List.mem_filter, decide_eq_true_eq] at hpv2
        have hdc : d ∈ g.candidates pv.1 pv.2 := sortAsc_mem hdmem
        exact ⟨hpv2.2, (mem_digitsSet.1 (hr pv.1 pv.2 hdc)).1⟩
      · exact Option.noConfusion hd
  · exact Option.noConfusion h

theorem tierOf_eq_tierName {n : String} {s : Step} (h : s.strategy = n) :
    tierOf n s = tierName n := by
  simp only [tierOf, tierName, h]
  rcases hl : STRATEGY_TIER.lookup n with _ | t <;> simp [hl]

/-- Any step returned by any registered detector is a good step, and the
tier the rater computes for it equals the tier of the registry name. -/
theorem strategies_good {g : Grid} {nf : String × (Grid → Option Step)} {a : Step}
    (hr : candRange g) (hmem : nf ∈ ALL_STRATEGIES) (ha : nf.2 g = some a) :
    goodStep g a ∧ tierOf nf.1 a = tierName nf.1 := by
  simp only [ALL_STRATEGIES, List.mem_cons, List.not_mem_nil, or_false] at hmem
  rcases hmem with rfl | rfl | rfl | rfl | rfl | rfl | rfl | rfl | rfl | rfl | rfl |
    rfl | rfl | rfl | rfl | rfl | rfl | rfl | rfl | rfl | rfl
  · obtain ⟨hg, hs⟩ := find_full_house_good ha
    exact ⟨hg, tierOf_eq_tierName hs⟩
  · obtain ⟨hg, hs⟩ := find_naked_single_good hr ha
    exact ⟨hg, tierOf_eq_tierName hs⟩
  · obtain ⟨hg, hs⟩ := find_hidden_single_good ha
    exact ⟨hg, tierOf_eq_tierName hs⟩
  · obtain ⟨hg, hs⟩ := find_naked_set_good ha
    exact ⟨hg, tierOf_eq_tierName (by rw [hs]; rfl)⟩
  · obtain ⟨hg, hs⟩ := find_hidden_set_good ha
    exact ⟨hg, tierOf_eq_tierName (by rw [hs]; rfl)⟩
  · obtain ⟨hg, hs⟩ := find_naked_set_good ha
    exact ⟨hg, tierOf_eq_tierName (by rw [hs]; rfl)⟩
  · obtain ⟨hg, hs⟩ := find_hidden_set_good ha
    exact ⟨hg, tierOf_eq_tierName (by rw [hs]; rfl)⟩
  · obtain ⟨hg, hs⟩ := find_naked_set_good ha
    exact ⟨hg, tierOf_eq_tierName (by rw [hs]; rfl)⟩
  · obtain ⟨hg, hs⟩ := find_hidden_set_good ha
    exact ⟨hg, tierOf_eq_tierName (by rw [hs]; rfl)⟩
  · obtain ⟨hg, hs⟩ := find_pointing_pairs_good ha
    refine ⟨hg, ?_⟩
    have hnone : STRATEGY_TIER.lookup a.strategy = none := by
      rcases hs with hs | hs <;> rw [hs] <;> rfl
    simp [tierOf, tierName, hnone]
  · obtain ⟨hg, hs⟩ := find_box_line_reduction_good ha
    exact ⟨hg, tierOf_eq_tierName hs⟩
  · obtain ⟨hg, hs⟩ := find_x_wing_good ha
    exact ⟨hg, tierOf_eq_tierName hs⟩
  · obtain ⟨hg, hs⟩ := find_swordfish_good ha
    exact ⟨hg, tierOf_eq_tierName hs⟩
  · obtain ⟨hg, hs⟩ := find_y_wing_good ha
    exact ⟨hg, tierOf_eq_tierName hs⟩
  · obtain ⟨hg, hs⟩ := find_xyz_wing_good ha
    exact ⟨hg, tierOf_eq_tierName hs⟩
  · obtain ⟨hg, hs⟩ := find_simple_coloring_good ha
    exact ⟨hg, tierOf_eq_tierName hs⟩
  · obtain ⟨hg, hs⟩ := find_unique_rectangle_good ha
    exact ⟨hg, tierOf_eq_tierName hs⟩
  · obtain ⟨hg, hs⟩ := find_w_wing_good ha
    exact ⟨hg, tierOf_eq_tierName hs⟩
  · obtain ⟨hg, hs⟩ := find_skyscraper_good ha
    exact ⟨hg, tierOf_eq_tierName hs⟩
  · obtain ⟨hg, hs⟩ := find_2_string_kite_good ha
    exact ⟨hg, tierOf_eq_tierName hs⟩
  · obtain ⟨hg, hs⟩ := find_bug_plus_1_good hr ha
    exact ⟨hg, tierOf_eq_tierName hs⟩

/-- Any step produced by the registry scan is a good step, and the tier the
rater computes for it equals the tier of the registry strategy name. -/
theorem firstStep_good {g : Grid} {n : String} {s : Step} (hr : candRange g)
    (h : firstStep g = some (n, s)) :
    goodStep g s ∧ tierOf n s = tierName n := by
  obtain ⟨nf, hmem, hnf⟩ := findSome?_mem h
  rw [Option.map_eq_some'] at hnf
  obtain ⟨a, ha, heq⟩ := hnf
  obtain ⟨h1, h2⟩ := Prod.mk.injEq .. ▸ heq
  subst h1
  subst h2
  exact strategies_good hr hmem ha

/-! ### Candidate-range invariant and driver termination -/

theorem candRange_init (values : Fin 9 → Fin 9 → ℕ) : candRange (Grid.init values) := by
  intro r c
  refine (foldl_cand_subset _ (fun g x r c => remove_from_peers_cand_subset _ _ _ _ _ _)
    _ _ r c).trans ?_
  dsimp only
  split
  · exact Finset.Subset.refl _
  · exact Finset.empty_subset _

theorem candRange_apply {g : Grid} (h : candRange g) (s : Step) :
    candRange (g.apply_step s) :=
  fun r c => (apply_step_cand_subset g s r c).trans (h r c)

theorem driverLoop_no_fuelOut :
    ∀ (fuel : ℕ) (g : Grid), candRange g → totalCands g + emptyCount g < fuel →
      (driverLoop fuel g).2 ≠ DOutcome.fuelOut := by
  intro fuel
  induction fuel with
  | zero => intro g _ h; omega
  | succ fuel ih =>
    intro g hr hlt
    rw [driverLoop]
    split
    · simp
    · split
      · simp
      · next n s heq =>
        dsimp only
        obtain ⟨hg, _⟩ := firstStep_good hr heq
        exact ih (g.apply_step s) (candRange_apply hr s)
          (lt_of_lt_of_le (goodStep_mu_lt hg) (Nat.lt_succ_iff.mp hlt))

/-- The rater's loop is the driver's loop, accumulating the max tier of the
names of fired strategies. -/
theorem rateLoop_eq_driverLoop :
    ∀ (fuel : ℕ) (g : Grid) (t : ℕ), candRange g →
      rateLoop fuel g t =
        match driverLoop fuel g with
        | (tr, DOutcome.solved) =>
            some (tr.foldl (fun acc p => max acc (tierName p.1)) t)
        | (_, DOutcome.stuck) => some 0
        | (_, DOutcome.fuelOut) => none := by
  intro fuel
  induction fuel with
  | zero => intro g t _; rfl
  | succ fuel ih =>
    intro g t hr
    rw [rateLoop, driverLoop]
    split
    · simp
    · split
      · simp
      · next n s heq =>
        dsimp only
        obtain ⟨hg, htier⟩ := firstStep_good hr heq
        rw [ih (g.apply_step s) _ (candRange_apply hr s)]
        rcases hdr : driverLoop fuel (g.apply_step s) with ⟨tr, out⟩
        cases out <;> simp [htier]

/-! ### The subset form of invariant (1) -/

theorem missingDigits_congr {g g' : Grid} (h : g'.values = g.values) (r c : Fin 9) :
    missingDigits g' r c = missingDigits g r c := by
  simp [missingDigits, h]

theorem elimOne_subsetInv {g : Grid} (h : subsetInv g) (e : Fin 9 × Fin 9 × ℕ) :
    subsetInv (g.elimOne e) := by
  intro r c hv
  refine (elimOne_cand_subset g e r c).trans ?_
  rw [missingDigits_congr (rfl : (g.elimOne e).values = g.values)]
  exact h r c hv

theorem placeOne_cand_mem {g : Grid} {p : Fin 9 × Fin 9 × ℕ} {r c : Fin 9} {x : ℕ}
    (hrc : ((r, c) : Cell) ≠ (p.1, p.2.1))
    (hx : x ∈ (g.placeOne p).candidates r c) :
    x ∈ g.candidates r c ∧ (cell_sees p.1 p.2.1 r c = true → x ≠ p.2.2) := by
  simp only [Grid.placeOne, Grid.remove_from_peers] at hx
  by_cases hs : cell_sees p.1 p.2.1 r c = true
  · rw [if_pos hs, if_neg hrc] at hx
    rw [Finset.mem_erase] at hx
    exact ⟨hx.2, fun _ => hx.1⟩
  · rw [if_neg hs, if_neg hrc] at hx
    exact ⟨hx, fun hcon => absurd hcon hs⟩

theorem placeOne_subsetInv {g : Grid} (h : subsetInv g) (p : Fin 9 × Fin 9 × ℕ) :
    subsetInv (g.placeOne p) := by
  intro r c hv x hx
  by_cases hrc : ((r, c) : Cell) = (p.1, p.2.1)
  · obtain ⟨h1, h2⟩ := Prod.mk.injEq .. ▸ hrc
    subst h1
    subst h2
    rw [placeOne_cand_self] at hx
    exact absurd hx (Finset.not_mem_empty x)
  · obtain ⟨hxold, hxne⟩ := placeOne_cand_mem hrc hx
    have hvold : g.values r c = 0 := by
      rw [placeOne_values, if_neg hrc] at hv
      exact hv
    have hmiss := h r c hvold hxold
    rw [missingDigits, Finset.mem_filter] at hmiss ⊢
    refine ⟨hmiss.1, ?_⟩
    intro pp hpp
    rw [placeOne_values]
    split
    · next hppq =>
      have hpq : pp ≠ ((r, c) : Cell) := by
        intro hcon
        exact hrc (by rw [← hcon]; exact hppq)
      have hsees : cell_sees r c pp.1 pp.2 = true := by
        rcases mem_houseCells_iff.1 hpp with hcase | hcase
        · exact absurd hcase hpq
        · exact hcase
      have hsees2 : cell_sees p.1 p.2.1 r c = true := by
        have h1 : (pp.1, pp.2) = ((p.1, p.2.1) : Cell) := by
          rcases pp; exact hppq
        rw [cell_sees_symm] at hsees
        obtain ⟨e1, e2⟩ := Prod.mk.injEq .. ▸ h1
        rw [← e1, ← e2]
        exact hsees
      exact fun hcon => (hxne hsees2) hcon.symm
    · exact hmiss.2 pp hpp

theorem foldl_subsetInv {γ : Type} (op : Grid → γ → Grid)
    (hop : ∀ g x, subsetInv g → subsetInv (op g x)) :
    ∀ (l : List γ) (g : Grid), subsetInv g → subsetInv (l.foldl op g) := by
  intro l
  induction l with
  | nil => intro g h; exact h
  | cons x t ih => intro g h; exact ih (op g x) (hop g x h)

theorem apply_step_subsetInv {g : Grid} (h : subsetInv g) (s : Step) :
    subsetInv (g.apply_step s) := by
  rw [Grid.apply_step]
  exact foldl_subsetInv _ (fun g x hg => placeOne_subsetInv hg x) _ _
    (foldl_subsetInv _ (fun g x hg => elimOne_subsetInv hg x) _ _ h)

/-! ### Characterization of the initial candidates -/

theorem removeFold_values (w : Grid) :
    ∀ (l : List Cell) (gg : Grid),
      (l.foldl (fun a p => a.remove_from_peers p.1 p.2 (w.values p.1 p.2)) gg).values =
        gg.values := by
  intro l
  induction l with
  | nil => intro gg; rfl
  | cons x t ih => intro gg; rw [List.foldl_cons, ih]; rfl

theorem init_values (values : Fin 9 → Fin 9 → ℕ) :
    (Grid.init values).values = values := by
  rw [Grid.init, Grid.init_candidates]
  exact removeFold_values _ _ _

theorem removeFold_cand_mem (w : Grid) :
    ∀ (L : List Cell) (acc : Grid) (r c : Fin 9) (x : ℕ),
      (x ∈ (L.foldl (fun a p => a.remove_from_peers p.1 p.2
          (w.values p.1 p.2)) acc).candidates r c) ↔
        (x ∈ acc.candidates r c ∧
          ∀ p ∈ L, cell_sees p.1 p.2 r c = true → w.values p.1 p.2 ≠ x) := by
  intro L
  induction L with
  | nil => intro acc r c x; simp
  | cons p t ih =>
    intro acc r c x
    rw [List.foldl_cons, ih]
    have hre : (acc.remove_from_peers p.1 p.2 (w.values p.1 p.2)).candidates r c =
        if cell_sees p.1 p.2 r c then (acc.candidates r c).erase (w.values p.1 p.2)
        else acc.candidates r c := rfl
    rw [hre]
    by_cases hs : cell_sees p.1 p.2 r c = true
    · rw [if_pos hs, Finset.mem_erase]
      constructor
      · rintro ⟨⟨hne, hmem⟩, hrest⟩
        refine ⟨hmem, ?_⟩
        intro q hq
        rcases List.mem_cons.1 hq with rfl | hq2
        · exact fun _ => hne.symm
        · exact hrest q hq2
      · rintro ⟨hmem, hall⟩
        exact ⟨⟨fun hcon => (hall p (List.mem_cons_self _ _) hs) hcon.symm, hmem⟩,
          fun q hq => hall q (List.mem_cons_of_mem _ hq)⟩
    · rw [if_neg hs]
      constructor
      · rintro ⟨hmem, hrest⟩
        refine ⟨hmem, ?_⟩
        intro q hq
        rcases List.mem_cons.1 hq with rfl | hq2
        · exact fun hcon => absurd hcon hs
        · exact hrest q hq2
      · rintro ⟨hmem, hall⟩
        exact ⟨hmem, fun q hq => hall q (List.mem_cons_of_mem _ hq)⟩

/-- The initialization satisfies invariant (1) exactly: each empty cell's
candidate set is `{1..9}` minus the digits of its three houses. -/
theorem init_inv1 (values : Fin 9 → Fin 9 → ℕ) : inv1 (Grid.init values) := by
  intro r c hv
  rw [init_values] at hv
  ext x
  have hiff : x ∈ (Grid.init values).candidates r c ↔
      (x ∈ (if values r c = 0 then digitsSet else (∅ : Finset ℕ)) ∧
        ∀ p ∈ allCells.filter (fun p => decide (values p.1 p.2 ≠ 0)),
          cell_sees p.1 p.2 r c = true → values p.1 p.2 ≠ x) :=
    removeFold_cand_mem _ _ _ r c x
  rw [hiff, if_pos hv, missingDigits, Finset.mem_filter,
    show (Grid.init values).values = values from init_values values]
  constructor
  · rintro ⟨hd, hall⟩
    refine ⟨hd, ?_⟩
    intro p hp
    rcases mem_houseCells_iff.1 hp with rfl | hsees
    · have := mem_digitsSet.1 hd
      dsimp only
      omega
    · by_cases hz : values p.1 p.2 = 0
      · have := mem_digitsSet.1 hd
        omega
      · refine hall p ?_ ?_
        · rw [List.mem_filter]
          exact ⟨mem_allCells p, by simpa using hz⟩
        · rw [cell_sees_symm]
          exact hsees
  · rintro ⟨hd, hall⟩
    refine ⟨hd, ?_⟩
    intro p hp hsees
    refine hall p ?_
    rw [mem_houseCells_iff]
    right
    rw [cell_sees_symm]
    exact hsees

theorem init_subsetInv (values : Fin 9 → Fin 9 → ℕ) : subsetInv (Grid.init values) :=
  fun r c hv => (init_inv1 values r c hv) ▸ Finset.Subset.refl _

/-- The subset invariant holds after any sequence of `apply_step`. -/
theorem steps_subsetInv (values : Fin 9 → Fin 9 → ℕ) (steps : List Step) :
    subsetInv (steps.foldl Grid.apply_step (Grid.init values)) :=
  foldl_subsetInv _ (fun _ s hg => apply_step_subsetInv hg s) steps _
    (init_subsetInv values)

/-! ### Elimination-only characterisation of `apply_step` -/

theorem elimFold_cand_mem :
    ∀ (l : List (Fin 9 × Fin 9 × ℕ)) (g : Grid) (r c : Fin 9) (x : ℕ),
      (x ∈ (l.foldl Grid.elimOne g).candidates r c) ↔
        (x ∈ g.candidates r c ∧ ∀ e ∈ l, e.1 = r → e.2.1 = c → e.2.2 ≠ x) := by
  intro l
  induction l with
  | nil => intro g r c x; simp
  | cons e t ih =>
    intro g r c x
    rw [List.foldl_cons, ih]
    have hre : (g.elimOne e).candidates r c =
        if ((r, c) : Cell) = (e.1, e.2.1) then (g.candidates r c).erase e.2.2
        else g.candidates r c := rfl
    rw [hre]
    by_cases hc : ((r, c) : Cell) = (e.1, e.2.1)
    · obtain ⟨h1, h2⟩ := Prod.mk.injEq .. ▸ hc
      rw [if_pos hc, Finset.mem_erase]
      constructor
      · rintro ⟨⟨hne, hmem⟩, hrest⟩
        refine ⟨hmem, ?_⟩
        intro q hq
        rcases List.mem_cons.1 hq with rfl | hq2
        · exact fun _ _ hcon => hne hcon.symm
        · exact hrest q hq2
      · rintro ⟨hmem, hall⟩
        refine ⟨⟨fun hcon => hall e (List.mem_cons_self _ _) h1.symm h2.symm hcon.symm,
          hmem⟩, fun q hq => hall q (List.mem_cons_of_mem _ hq)⟩
    · rw [if_neg hc]
      constructor
      · rintro ⟨hmem, hrest⟩
        refine ⟨hmem, ?_⟩
        intro q hq
        rcases List.mem_cons.1 hq with rfl | hq2
        · intro hr1 hc1
          exfalso
          exact hc (by rw [Prod.mk.injEq]; exact ⟨hr1.symm, hc1.symm⟩)
        · exact hrest q hq2
      · rintro ⟨hmem, hall⟩
        exact ⟨hmem, fun q hq => hall q (List.mem_cons_of_mem _ hq)⟩

/-- For a step with no placements, `apply_step` never fails: the values are
untouched and each candidate set simply loses the digits eliminated at that
cell — including, possibly, the last one. -/
theorem apply_step_elims_only (g : Grid) (s : Step) (h : s.placements = []) :
    (g.apply_step s).values = g.values ∧
      ∀ r c, (g.apply_step s).candidates r c =
        (g.candidates r c).filter
          (fun x => ∀ e ∈ s.eliminations, e.1 = r → e.2.1 = c → e.2.2 ≠ x) := by
  rw [Grid.apply_step, h]
  simp only [List.foldl_nil]
  refine ⟨elimFold_values _ _, ?_⟩
  intro r c
  ext x
  rw [elimFold_cand_mem, Finset.mem_filter]

/-! ### `read_puzzle` characterisation -/

theorem parseFold (lines : List (List Char)) :
    ∀ acc : List (List ℕ),
      lines.foldl
        (fun acc line =>
          if validLine line then acc ++ [(stripChars line).map fun ch => ch.toNat - 48]
          else acc) acc =
        acc ++ (lines.filter validLine).map
          (fun line => (stripChars line).map fun ch => ch.toNat - 48) := by
  induction lines with
  | nil => intro acc; simp
  | cons l t ih =>
    intro acc
    rw [List.foldl_cons]
    by_cases hv : validLine l = true
    · rw [if_pos hv, ih, List.filter_cons_of_pos hv]
      simp
    · rw [if_neg hv, ih, List.filter_cons_of_neg hv]

theorem read_puzzle_eq (lines : List (List Char)) :
    read_puzzle lines =
      if (lines.filter validLine).length = 9
      then some ((lines.filter validLine).map
        (fun line => (stripChars line).map fun ch => ch.toNat - 48))
      else none := by
  rw [read_puzzle, parseFold]
  simp [List.length_map]

/-! ### Generator: uniqueness invariant and determinism -/

theorem bset_restore (b : Board) (r c : ℕ) :
    bset (bset b r c 0) r c (b r c) = b := by
  funext r' c'
  simp only [bset]
  by_cases h : r' = r ∧ c' = c
  · rw [if_pos h, h.1, h.2]
  · rw [if_neg h, if_neg h]

theorem punchHoles_unique (emptyMax : ℕ) :
    ∀ (cells : List ℕ) (b : Board) (cnt : ℕ),
      (1 ≤ cnt → has_unique_solution b = true) →
      (1 ≤ (punchHoles emptyMax b cells cnt).2 →
        has_unique_solution (punchHoles emptyMax b cells cnt).1 = true) := by
  intro cells
  induction cells with
  | nil => intro b cnt h; exact h
  | cons pos rest ih =>
    intro b cnt h
    rw [punchHoles]
    by_cases hu : has_unique_solution (bset b (pos / 9) (pos % 9) 0) = true
    · rw [if_pos hu]
      by_cases hbreak : emptyMax ≤ cnt + 1
      · rw [if_pos hbreak]
        exact fun _ => hu
      · rw [if_neg hbreak]
        exact ih _ _ (fun _ => hu)
    · rw [if_neg hu]
      refine ih _ _ ?_
      rw [bset_restore]
      exact h

theorem emptyMin_pos (t : ℕ) : 1 ≤ (EMPTY_RANGE t).1 := by
  unfold EMPTY_RANGE
  split <;> norm_num

theorem genAttempts_unique (A : RandomAlgo) (targetTier seed : ℕ) :
    ∀ (n i : ℕ) {p : Board},
      genAttempts A targetTier seed (EMPTY_RANGE targetTier).1
        (EMPTY_RANGE targetTier).2 i n = some p →
      has_unique_solution p = true := by
  intro n
  induction n with
  | zero => intro i p h; exact absurd h (by rw [genAttempts]; simp)
  | succ n ih =>
    intro i p h
    rw [genAttempts] at h
    dsimp only at h
    split at h
    · exact ih _ h
    · next hge =>
      split at h
      · obtain rfl : _ = p := Option.some.inj h
        refine punchHoles_unique _ _ _ _ (by omega) ?_
        have := emptyMin_pos targetTier
        omega
      · exact ih _ h

/-- Every successfully generated puzzle passes `_has_unique_solution`,
whatever the RNG does. -/
theorem generate_puzzle_unique (A : RandomAlgo) (targetTier maxAttempts seed : ℕ)
    {p : Board} (h : generate_puzzle A targetTier maxAttempts seed = some p) :
    has_unique_solution p = true := by
  rw [generate_puzzle] at h
  exact genAttempts_unique A targetTier seed maxAttempts 0 h

theorem genAttempts_congr (ra rb : ℕ → ℕ → ℕ) (sh : ℕ → ℕ → List ℕ → List ℕ)
    (t s s' eMin eMax : ℕ) (h1 : ∀ i, ra s i = rb s' i) :
    ∀ (n i : ℕ),
      genAttempts ⟨ra, sh⟩ t s eMin eMax i n = genAttempts ⟨rb, sh⟩ t s' eMin eMax i n := by
  intro n
  induction n with
  | zero => intro i; rfl
  | succ n ih =>
    intro i
    rw [genAttempts, genAttempts]
    dsimp only
    rw [h1 i]
    split
    · exact ih (i + 1)
    · split
      · rfl
      · exact ih (i + 1)

/-! ### Assembled invariants and small helpers for the claims -/

/-- The data-model invariants of §3 for a grid: (1) candidate exactness,
(2) no duplicated digit in a house, (3) non-empty candidates for empty
cells, and the model convention that filled cells carry an empty candidate
set. -/
abbrev gridInvariants (g : Grid) : Prop :=
  inv1 g ∧ inv2 g ∧ inv3 g ∧ ∀ r c, g.values r c ≠ 0 → g.candidates r c = ∅

theorem invariants_candRange {g : Grid} (h : gridInvariants g) : candRange g := by
  obtain ⟨h1, _, _, h4⟩ := h
  intro r c
  by_cases hz : g.values r c = 0
  · rw [h1 r c hz]
    exact Finset.filter_subset _ _
  · rw [h4 r c hz]
    exact Finset.empty_subset _

theorem init_candidates_filled (values : Fin 9 → Fin 9 → ℕ) (r c : Fin 9)
    (h : values r c ≠ 0) : (Grid.init values).candidates r c = ∅ := by
  ext x
  have hiff : x ∈ (Grid.init values).candidates r c ↔
      (x ∈ (if values r c = 0 then digitsSet else (∅ : Finset ℕ)) ∧
        ∀ p ∈ allCells.filter (fun p => decide (values p.1 p.2 ≠ 0)),
          cell_sees p.1 p.2 r c = true → values p.1 p.2 ≠ x) :=
    removeFold_cand_mem _ _ _ r c x
  rw [hiff, if_neg h]
  simp

theorem missingDigits_init (values : Fin 9 → Fin 9 → ℕ) (r c : Fin 9) :
    missingDigits (Grid.init values) r c =
      digitsSet.filter fun d => ∀ p ∈ houseCellsOf r c, values p.1 p.2 ≠ d := by
  ext x
  simp only [missingDigits, Finset.mem_filter, init_values]

/-- Boolean check that every empty cell of a raw value assignment has at
least one digit absent from its three houses. -/
def missingOK (values : Fin 9 → Fin 9 → ℕ) : Bool :=
  fins9.all fun r => fins9.all fun c =>
    values r c != 0 ||
      digitsList.any fun d => (houseCellsOf r c).all fun p => values p.1 p.2 != d

theorem missingOK_spec {values : Fin 9 → Fin 9 → ℕ} (h : missingOK values = true) :
    ∀ r c, values r c = 0 →
      (digitsSet.filter fun d => ∀ p ∈ houseCellsOf r c, values p.1 p.2 ≠ d) ≠ ∅ := by
  intro r c hv
  simp only [missingOK, List.all_eq_true, List.any_eq_true, Bool.or_eq_true,
    bne_iff_ne, ne_eq] at h
  obtain hrc := h r (mem_fins9 r) c (mem_fins9 c)
  rcases hrc with hnz | ⟨d, hd, hall⟩
  · exact absurd hv hnz
  · intro hempty
    have hdmem : d ∈ digitsSet.filter
        fun d => ∀ p ∈ houseCellsOf r c, values p.1 p.2 ≠ d := by
      rw [Finset.mem_filter]
      exact ⟨mem_digitsSet.2 (mem_digitsList.1 hd), fun p hp => hall p hp⟩
    rw [hempty] at hdmem
    exact absurd hdmem (Finset.not_mem_empty d)

/-- The §3 invariants hold at construction time as soon as the values are
valid and no empty cell's house-complement is empty; both side conditions
are decidable facts about the raw values alone. -/
theorem gridInvariants_init (values : Fin 9 → Fin 9 → ℕ)
    (h2 : validValues values)
    (h3 : missingOK values = true) :
    gridInvariants (Grid.init values) := by
  refine ⟨init_inv1 values, ?_, ?_, ?_⟩
  · show validValues (Grid.init values).values
    rw [init_values]; exact h2
  · intro r c hv
    have hv' : values r c = 0 := by rw [init_values] at hv; exact hv
    rw [init_inv1 values r c hv, missingDigits_init]
    exact missingOK_spec h3 r c hv'
  · intro r c hv
    have hv' : values r c ≠ 0 := by rw [init_values] at hv; exact hv
    exact init_candidates_filled values r c hv'

theorem driver_trace_cons (fuel : ℕ) (g : Grid) (hns : ¬ g.is_solved = true)
    (hfs : (firstStep g).isSome = true) : (driverLoop (fuel + 1) g).1 ≠ [] := by
  rw [driverLoop, if_neg hns]
  rcases h : firstStep g with _ | p
  · rw [h] at hfs
    exact absurd hfs (by simp)
  · rcases p with ⟨n, s⟩
    dsimp only
    simp

/-- A placeholder step used only to read values out of an `Option Step`
that is known to be `some`. -/
def noStep : Step := { strategy := "" }

/-- The trivial RNG model: identity shuffles, zero draws. -/
def idAlgo : RandomAlgo := { randint := fun _ _ => 0, shuffle := fun _ _ l => l }

theorem gridFuel_succ (g : Grid) :
    gridFuel g = (totalCands g + emptyCount g) + 1 := rfl

/-! ### The claims -/

/-- The first Naked Pair step of `boardA`, as returned by
`find_naked_set (Grid.init boardA) 2` (the fourth registry detector). -/
def nakedPairStepA : Step :=
  { strategy := "Naked Pair", placements := [],
    eliminations := [(0, 2, 1), (0, 2, 2)],
    house_type := "row", house_index := 0, pattern_cells := [] }

/-- C1 (counterexample).  The claim fails on the code in both conjuncts.
On the valid board `boardA` the Naked Pair detector (detector 4 of the 21)
fires, and after `apply_step` the eliminated cell's candidate set is a
strict subset of the digits missing from its houses, so the equality form
of invariant (1) is violated.  On the valid board `boardB` the Full House
detector (detector 1) fires on row 1 and places a 5 that already occurs in
column 9, violating invariant (2). -/
theorem C1_cex :
    validValues boardA ∧ (find_naked_set (Grid.init boardA) 2).isSome = true ∧
      ¬ inv1 ((Grid.init boardA).apply_step
        ((find_naked_set (Grid.init boardA) 2).getD noStep)) ∧
    validValues boardB ∧ (find_full_house (Grid.init boardB)).isSome = true ∧
      ¬ inv2 ((Grid.init boardB).apply_step
        ((find_full_house (Grid.init boardB)).getD noStep)) :=
  ⟨by decide, by decide, by decide, by decide, by decide, by decide⟩

/-- C1 (amended).  After any sequence of `apply_step` calls on a Grid built
from a valid initial board, every empty cell's candidate set is a subset of
the digits 1–9 not appearing in its row, column and box.  (The equality
form of invariant (1) and invariant (2) can both fail; see the
counterexample.  Validity of the initial board is assumed by the claim but
not needed.) -/
theorem C1_subset_invariant (values : Fin 9 → Fin 9 → ℕ)
    (_hv : validValues values) (steps : List Step) :
    subsetInv (steps.foldl Grid.apply_step (Grid.init values)) :=
  steps_subsetInv values steps

/-- C1 witness: the amended claim applied to `boardA`, no steps, cell R1C3. -/
theorem C1_subset_invariant_witness :
    validValues boardA ∧
      (([] : List Step).foldl Grid.apply_step (Grid.init boardA)).values 0 2 = 0 ∧
      (([] : List Step).foldl Grid.apply_step (Grid.init boardA)).candidates 0 2 ⊆
        missingDigits (([] : List Step).foldl Grid.apply_step (Grid.init boardA)) 0 2 :=
  ⟨by decide, by decide, C1_subset_invariant boardA (by decide) [] 0 2 (by decide)⟩

/-- C2 (counterexample).  `boardDup` has two 5s in row 1, so it is not a
valid board, yet `Grid.__init__` raises nothing (there is no check at all
in the constructor) and the driver emits at least one step (a Full House in
row 9) instead of refusing to run. -/
theorem C2_cex : (¬ validValues boardDup) ∧ (solveRun boardDup).1 ≠ [] := by
  refine ⟨by decide, ?_⟩
  show (driverLoop (gridFuel (Grid.init boardDup)) (Grid.init boardDup)).1 ≠ []
  rw [gridFuel_succ]
  exact driver_trace_cons _ _ (by decide) (by decide)

/-- C2 (amended).  Grid construction is total: for every 9×9 input —
duplicated digits included — the constructor returns a Grid holding exactly
the input values whose candidates satisfy invariant (1); no
`InvalidInitialBoard` failure exists in the code and the driver runs on the
result. -/
theorem C2_construction_total (values : Fin 9 → Fin 9 → ℕ) :
    (Grid.init values).values = values ∧ inv1 (Grid.init values) :=
  ⟨init_values values, init_inv1 values⟩

/-- C2 witness: the amended claim at the duplicated board, cell R1C3. -/
theorem C2_construction_total_witness :
    (¬ validValues boardDup) ∧ (Grid.init boardDup).values 0 2 = 0 ∧
      (Grid.init boardDup).candidates 0 2 = missingDigits (Grid.init boardDup) 0 2 :=
  ⟨by decide, by decide, (C2_construction_total boardDup).2 0 2 (by decide)⟩

/-- C3 (counterexample).  On `boardA` the Naked Pair step eliminates both
candidates of the empty cell R1C3.  `apply_step` does not fail and does not
leave the grid unchanged: the cell is still empty, its candidate set
becomes empty, and the grid differs from the pre-state.  No
`ContradictionDetected` failure exists in the code. -/
theorem C3_cex :
    (find_naked_set (Grid.init boardA) 2).isSome = true ∧
      (Grid.init boardA).values 0 2 = 0 ∧
      (Grid.init boardA).candidates 0 2 ≠ ∅ ∧
      ((Grid.init boardA).apply_step
        ((find_naked_set (Grid.init boardA) 2).getD noStep)).values 0 2 = 0 ∧
      ((Grid.init boardA).apply_step
        ((find_naked_set (Grid.init boardA) 2).getD noStep)).candidates 0 2 = ∅ ∧
      ((Grid.init boardA).apply_step
          ((find_naked_set (Grid.init boardA) 2).getD noStep)).candidates 0 2 ≠
        (Grid.init boardA).candidates 0 2 :=
  ⟨by decide, by decide, by decide, by decide, by decide, by decide⟩

/-- C3 (amended).  `apply_step` is unguarded and total: for an
elimination-only step the values are untouched and every candidate set
becomes the old set minus the digits eliminated at that cell — even when
this removes an empty cell's last candidate.  Nothing is rolled back and no
error is signalled. -/
theorem C3_apply_step_unguarded (g : Grid) (s : Step) (h : s.placements = []) :
    (g.apply_step s).values = g.values ∧
      ∀ r c, (g.apply_step s).candidates r c =
        (g.candidates r c).filter
          (fun x => ∀ e ∈ s.eliminations, e.1 = r → e.2.1 = c → e.2.2 ≠ x) :=
  apply_step_elims_only g s h

/-- C3 witness: the amended claim at the Naked Pair step of `boardA`. -/
theorem C3_apply_step_unguarded_witness :
    ((find_naked_set (Grid.init boardA) 2).getD noStep).placements = [] ∧
      ((Grid.init boardA).apply_step
        ((find_naked_set (Grid.init boardA) 2).getD noStep)).values =
        (Grid.init boardA).values :=
  ⟨by decide, (C3_apply_step_unguarded _ _ (by decide)).1⟩

/-- C4.  Every step returned by any of the 21 registered detectors on a
grid satisfying the data-model invariants has a non-empty placements or
eliminations list, and applying it strictly reduces the total number of
candidates over all cells. -/
theorem C4_detector_steps_progress (g : Grid) (nf : String × (Grid → Option Step))
    (s : Step) (hinv : gridInvariants g) (hmem : nf ∈ ALL_STRATEGIES)
    (h : nf.2 g = some s) :
    (s.placements ≠ [] ∨ s.eliminations ≠ []) ∧
      totalCands (g.apply_step s) < totalCands g := by
  have hr := invariants_candRange hinv
  obtain ⟨hg, _⟩ := strategies_good hr hmem h
  exact ⟨hg.2.2, goodStep_totalCands_lt hg hinv.2.2.1⟩

/-- C4 witness: the Naked Pair detector on `boardA`. -/
theorem C4_detector_steps_progress_witness :
    gridInvariants (Grid.init boardA) ∧
      (nakedPairStepA.placements ≠ [] ∨ nakedPairStepA.eliminations ≠ []) ∧
      totalCands ((Grid.init boardA).apply_step nakedPairStepA) <
        totalCands (Grid.init boardA) :=
  have hinv : gridInvariants (Grid.init boardA) :=
    gridInvariants_init boardA (by decide) (by decide)
  ⟨hinv,
   C4_detector_steps_progress (Grid.init boardA)
     ("Naked Pair", fun g => find_naked_set g 2) nakedPairStepA hinv
     (List.Mem.tail _ (List.Mem.tail _ (List.Mem.tail _ (List.Mem.head _))))
     (by decide)⟩

/-- C5.  For every valid initial board the driver loop terminates: run with
the fuel `gridFuel`, it reaches a Solved or Stuck outcome and never
exhausts the fuel (validity is assumed by the claim but not needed). -/
theorem C5_driver_terminates (values : Fin 9 → Fin 9 → ℕ)
    (_hv : validValues values) :
    (solveRun values).2 = DOutcome.solved ∨ (solveRun values).2 = DOutcome.stuck := by
  have h := driverLoop_no_fuelOut (gridFuel (Grid.init values)) (Grid.init values)
    (candRange_init values) (by rw [gridFuel_succ]; omega)
  rcases hck : (solveRun values).2 with _ | _ | _
  · exact Or.inl rfl
  · exact Or.inr rfl
  · exact absurd hck h

/-- C5 witness: termination on the valid board `boardA`. -/
theorem C5_driver_terminates_witness :
    validValues boardA ∧
      ((solveRun boardA).2 = DOutcome.solved ∨ (solveRun boardA).2 = DOutcome.stuck) :=
  ⟨by decide, C5_driver_terminates boardA (by decide)⟩

/-- C6.  The rater equals the driver: when the driver solves, the rating is
the maximum `STRATEGY_TIER` tier over the registry names of the emitted
steps; when the driver is stuck the rating is 0; on an already-solved
initial board the driver emits no steps and the rating is 0. -/
theorem C6_rater (values : Fin 9 → Fin 9 → ℕ) :
    ((solveRun values).2 = DOutcome.solved →
      rate values = (solveRun values).1.foldl (fun acc p => max acc (tierName p.1)) 0) ∧
    ((solveRun values).2 = DOutcome.stuck → rate values = 0) ∧
    ((Grid.init values).is_solved = true →
      rate values = 0 ∧ (solveRun values).1 = []) := by
  have hrel := rateLoop_eq_driverLoop (gridFuel (Grid.init values)) (Grid.init values) 0
    (candRange_init values)
  have hsr : solveRun values =
      driverLoop (gridFuel (Grid.init values)) (Grid.init values) := rfl
  refine ⟨?_, ?_, ?_⟩
  · intro hs
    rw [hsr] at hs ⊢
    rw [rate, hrel]
    rcases hdr : driverLoop (gridFuel (Grid.init values)) (Grid.init values) with ⟨tr, out⟩
    rw [hdr] at hs
    try dsimp only at hs
    subst hs
    rfl
  · intro hs
    rw [hsr] at hs
    rw [rate, hrel]
    rcases hdr : driverLoop (gridFuel (Grid.init values)) (Grid.init values) with ⟨tr, out⟩
    rw [hdr] at hs
    try dsimp only at hs
    subst hs
    rfl
  · intro hsol
    have hdr : driverLoop (gridFuel (Grid.init values)) (Grid.init values) =
        ([], DOutcome.solved) := by
      rw [gridFuel_succ, driverLoop, if_pos hsol]
    refine ⟨?_, ?_⟩
    · rw [rate, hrel, hdr]
      rfl
    · rw [hsr, hdr]

/-- C6 witness: the already-solved board. -/
theorem C6_rater_witness :
    (Grid.init boardSolved).is_solved = true ∧
      rate boardSolved = 0 ∧ (solveRun boardSolved).1 = [] :=
  ⟨by decide, ((C6_rater boardSolved).2.2 (by decide)).1,
    ((C6_rater boardSolved).2.2 (by decide)).2⟩

/-- C7.  Every board a successful `generate_puzzle` call returns passes
`_has_unique_solution`, for every target tier, attempt budget, seed and
RNG behaviour: each removal in the hole-punching loop is kept only when
the uniqueness check succeeds, and a returned puzzle has at least
`empty_min ≥ 45 ≥ 1` kept removals, so the last kept check vouches for it. -/
theorem C7_generated_unique (A : RandomAlgo) (targetTier maxAttempts seed : ℕ) :
    ((generate_puzzle A targetTier maxAttempts seed).all has_unique_solution) = true := by
  rcases h : generate_puzzle A targetTier maxAttempts seed with _ | p
  · rfl
  · simpa [Option.all] using generate_puzzle_unique A targetTier maxAttempts seed h

/-- C8.  The generator is a pure function of its inputs: if two RNG models
produce the same `randint` stream for the given seeds and the same
`shuffle` behaviour, `generate_puzzle` returns the same result.  In
particular, for one fixed model (Python's Mersenne Twister) and a fixed
seed the output is always the same; there is no hidden state. -/
theorem C8_generator_deterministic (A B : RandomAlgo)
    (targetTier maxAttempts s s' : ℕ)
    (h1 : ∀ i, A.randint s i = B.randint s' i)
    (h2 : ∀ sd k l, A.shuffle sd k l = B.shuffle sd k l) :
    generate_puzzle A targetTier maxAttempts s =
      generate_puzzle B targetTier maxAttempts s' := by
  rcases A with ⟨ra, sha⟩
  rcases B with ⟨rb, shb⟩
  have hsh : sha = shb := funext fun sd => funext fun k => funext fun l => h2 sd k l
  subst hsh
  rw [generate_puzzle, generate_puzzle]
  exact genAttempts_congr ra rb sha targetTier s s' _ _ h1 maxAttempts 0

/-- C8 witness: the identity RNG model at seed 0. -/
theorem C8_generator_deterministic_witness :
    generate_puzzle idAlgo 1 0 0 = generate_puzzle idAlgo 1 0 0 :=
  C8_generator_deterministic idAlgo idAlgo 1 0 0 0 (fun _ => rfl) (fun _ _ _ => rfl)

/-- Ten copies of a valid nine-digit line. -/
def tenLines : List (List Char) :=
  List.replicate 10 ['0', '0', '3', '0', '2', '0', '6', '0', '0']

/-- C9 (counterexample).  An input with ten valid lines — not fewer than
nine — still fails to parse: `read_puzzle` requires the number of valid
lines to be exactly nine, so the claimed "fails iff fewer than nine" is
wrong. -/
theorem C9_cex :
    (tenLines.filter validLine).length = 10 ∧ read_puzzle tenLines = none :=
  ⟨by decide, by decide⟩

/-- C9 (amended).  `read_puzzle` keeps exactly the whitespace-trimmed lines
of nine decimal digits, in order, and succeeds — returning those parsed
lines — if and only if their number is exactly nine (both fewer and more
than nine valid lines fail). -/
theorem C9_read_puzzle_characterisation (lines : List (List Char)) :
    read_puzzle lines =
      if (lines.filter validLine).length = 9
      then some ((lines.filter validLine).map
        (fun line => (stripChars line).map fun ch => ch.toNat - 48))
      else none :=
  read_puzzle_eq lines

/-- C10.  `apply_step` modifies only candidate sets and the values of the
placed cells: the givens array is untouched, the value of every cell not
listed in `step.placements` is unchanged, and no candidate set ever gains
a digit. -/
theorem C10_apply_step_frame (g : Grid) (s : Step) :
    (g.apply_step s).givens = g.givens ∧
    (∀ r c, (∀ p ∈ s.placements, ((r, c) : Cell) ≠ (p.1, p.2.1)) →
      (g.apply_step s).values r c = g.values r c) ∧
    (∀ r c d, d ∈ (g.apply_step s).candidates r c → d ∈ g.candidates r c) :=
  ⟨apply_step_givens g s,
   fun r c h => apply_step_values_of_not_placed g s r c h,
   fun r c d hd => apply_step_cand_subset g s r c hd⟩

/-- C10 witness: the Naked Pair step on `boardA`, cell R1C1, digit 1. -/
theorem C10_apply_step_frame_witness :
    ((Grid.init boardA).apply_step nakedPairStepA).values 0 0 =
        (Grid.init boardA).values 0 0 ∧
      1 ∈ ((Grid.init boardA).apply_step nakedPairStepA).candidates 0 0 ∧
      1 ∈ (Grid.init boardA).candidates 0 0 :=
  ⟨(C10_apply_step_frame _ nakedPairStepA).2.1 0 0 (by decide),
   by decide,
   (C10_apply_step_frame _ nakedPairStepA).2.2 0 0 1 (by decide)⟩
